import Mathlib

/-!
# prometheus_ovh_exporter: collection and normalisation pipeline

A shallow embedding of `prometheus_ovh_exporter.go`:

* `RealQuantity`, together with the library routines it is built from
  (`fmt.Sprintf "%f %s"`, `strings.TrimSuffix`, `units.FromHumanSize` of
  docker/go-units v0.5.0, `strconv.ParseFloat`, float64 arithmetic);
* `GetPublicCloudProjects`;
* `RecordCloudProjectMetrics` over a registry of five gauge vectors.

float64 values are modelled exactly: a finite value is a signed mantissa and a
binary exponent, and every operation rounds to nearest, ties to even, at 53
significant bits.  Strings are lists of code points (valid UTF-8, which is
what the JSON decoder produces); byte lengths and byte indexing go through the
UTF-8 encoding.
-/

set_option maxRecDepth 100000
set_option exponentiation.threshold 1100

namespace OvhExporter

/-! ## float64 -/

/-- A float64: NaN, an infinity, or the finite value `(-1)^neg * mant * 2^exp`. -/
inductive Float64 where
  | nan
  | inf (neg : Bool)
  | fin (neg : Bool) (mant : Nat) (exp : Int)
  deriving DecidableEq, Repr

/-- Nearest integer to `p / q`, ties to even. -/
def roundHalfEven (p q : Nat) : Nat :=
  if 2 * (p % q) < q then p / q
  else if q < 2 * (p % q) then p / q + 1
  else if (p / q) % 2 = 0 then p / q else p / q + 1

/-- Binary logarithm with fuel: `log2Fuel n n = ⌊log₂ n⌋` for `n ≠ 0`. -/
def log2Fuel : Nat → Nat → Nat
  | 0, _ => 0
  | fuel + 1, n => if n < 2 then 0 else log2Fuel fuel (n / 2) + 1

/-- Whether `2^g ≤ p / q`, decided on naturals. -/
def ratioGe (p q : Nat) (g : Int) : Bool :=
  if 0 ≤ g then decide (q * 2 ^ g.toNat ≤ p) else decide (q ≤ p * 2 ^ (-g).toNat)

/-- The integer `⌊log₂ (p / q)⌋` for positive `p`, `q`. -/
def floorLog2 (p q : Nat) : Int :=
  let g : Int := (log2Fuel p p : Int) - (log2Fuel q q : Int)
  if ratioGe p q g then g else g - 1

/-- Nearest integer to `p / (q * 2^e)`, ties to even. -/
def scaledRound (p q : Nat) (e : Int) : Nat :=
  if 0 ≤ e then roundHalfEven p (q * 2 ^ e.toNat) else roundHalfEven (p * 2 ^ (-e).toNat) q

/-- The float64 nearest to `(-1)^neg * p / q` (ties to even): 53 significant
bits, exponent at least `-1074` (subnormals), overflow to an infinity. -/
def Float64.round (neg : Bool) (p q : Nat) : Float64 :=
  if p = 0 then .fin neg 0 (-1074)
  else
    let e := max (floorLog2 p q - 52) (-1074)
    let m := scaledRound p q e
    let e1 := if m = 2 ^ 53 then e + 1 else e
    let m1 := if m = 2 ^ 53 then 2 ^ 52 else m
    if 971 < e1 then .inf neg else .fin neg m1 e1

/-- The float64 nearest to `(-1)^neg * m * 2^e`. -/
def Float64.roundBin (neg : Bool) (m : Nat) (e : Int) : Float64 :=
  if 0 ≤ e then Float64.round neg (m * 2 ^ e.toNat) 1 else Float64.round neg m (2 ^ (-e).toNat)

/-- Conversion `float64(n)` of a non-negative integer. -/
def Float64.ofNat (n : Nat) : Float64 := Float64.round false n 1

/-- Conversion `float64(i)` of an int64. -/
def Float64.ofInt (i : Int) : Float64 := Float64.round (decide (i < 0)) i.natAbs 1

/-- The float64 product `x * y`. -/
def Float64.mul : Float64 → Float64 → Float64
  | .nan, _ => .nan
  | _, .nan => .nan
  | .inf a, .inf b => .inf (a != b)
  | .inf a, .fin b m _ => if m = 0 then .nan else .inf (a != b)
  | .fin a m _, .inf b => if m = 0 then .nan else .inf (a != b)
  | .fin a m e, .fin b n f => Float64.roundBin (a != b) (m * n) (e + f)

/-- The comparison `x < 0`. -/
def Float64.ltZero : Float64 → Bool
  | .nan => false
  | .inf neg => neg
  | .fin neg m _ => neg && decide (m ≠ 0)

/-- The parts of the Go runtime and standard library this program's behaviour
depends on and that are not fixed here: the Unicode lower-case table outside
ASCII, and the result of converting a float64 that int64 cannot represent
(NaN, an infinity, a value out of range), which Go leaves to the
implementation. -/
structure Runtime where
  unicodeToLower : Char → Char
  int64OfUnrepresentable : Float64 → Int

/-- Integer part of `m * 2^e`. -/
def truncBin (m : Nat) (e : Int) : Nat :=
  if 0 ≤ e then m * 2 ^ e.toNat else m / 2 ^ (-e).toNat

/-- Conversion `int64(x)`: truncation toward zero. -/
def Float64.toInt64 (rt : Runtime) : Float64 → Int
  | .fin neg m e =>
    let v : Int := if neg then -(truncBin m e : Int) else (truncBin m e : Int)
    if -(2 : Int) ^ 63 ≤ v ∧ v < (2 : Int) ^ 63 then v
    else rt.int64OfUnrepresentable (.fin neg m e)
  | x => rt.int64OfUnrepresentable x

/-! ## Decimal rendering and parsing -/

/-- Decimal digits of `n`, most significant first, with fuel. -/
def decimalDigits : Nat → Nat → List Char
  | 0, _ => []
  | fuel + 1, n =>
    if n < 10 then [Nat.digitChar n]
    else decimalDigits fuel (n / 10) ++ [Nat.digitChar (n % 10)]

/-- Decimal rendering of a natural number. -/
def formatNat (n : Nat) : List Char := decimalDigits (n + 1) n

/-- The last `k` decimal digits of `n`, with leading zeros. -/
def fixedDigits : Nat → Nat → List Char
  | 0, _ => []
  | k + 1, n => fixedDigits k (n / 10) ++ [Nat.digitChar (n % 10)]

/-- The magnitude `m * 2^e` times `10^6`, rounded to the nearest integer, ties to even. -/
def scaled6 (m : Nat) (e : Int) : Nat :=
  if 0 ≤ e then m * 2 ^ e.toNat * 10 ^ 6 else roundHalfEven (m * 10 ^ 6) (2 ^ (-e).toNat)

/-- The verb `%f` of `fmt.Sprintf` on a float64: six digits after the point,
correctly rounded from the exact value. -/
def formatF : Float64 → List Char
  | .nan => ['N', 'a', 'N']
  | .inf false => ['+', 'I', 'n', 'f']
  | .inf true => ['-', 'I', 'n', 'f']
  | .fin neg m e =>
    (if neg then ['-'] else []) ++ formatNat (scaled6 m e / 10 ^ 6) ++ ['.'] ++
      fixedDigits 6 (scaled6 m e % 10 ^ 6)

/-- Value of a run of decimal digit characters. -/
def digitsValue (ds : List Char) : Nat :=
  ds.foldl (fun a c => 10 * a + (c.toNat - 48)) 0

/-- A decimal digit character. -/
def isDigit (c : Char) : Bool := decide (48 ≤ c.toNat) && decide (c.toNat ≤ 57)

/-- ASCII lower-casing of one code point. -/
def asciiLower (c : Char) : Char :=
  if 65 ≤ c.toNat ∧ c.toNat ≤ 90 then Char.ofNat (c.toNat + 32) else c

/-- Unsigned decimal `digits[.digits]` with at least one digit: the pair
(all digits read as one integer, number of digits after the point). -/
def parseDecimal (s : List Char) : Option (Nat × Nat) :=
  let ip := s.takeWhile isDigit
  let rest := s.dropWhile isDigit
  match rest with
  | [] => if ip = [] then none else some (digitsValue ip, 0)
  | c :: fp =>
    if c = '.' ∧ fp.all isDigit ∧ ¬ (ip = [] ∧ fp = []) then
      some (digitsValue (ip ++ fp), fp.length)
    else none

/-- An error value (`error` in Go); `none` of `Option Error` is `nil`. -/
abbrev Error := String

/-- The routine `strconv.ParseFloat(s, 64)` on plain decimal numbers
`[+-]digits[.digits]` and on the special values (`nan`, `[+-]inf`,
`[+-]infinity`, any case): the nearest float64, or a range error when that is
an infinity.  Everything else is a syntax error; that includes every string
holding a space.  Exponents, hexadecimal floats and digit-separating
underscores are not modelled (they are read as syntax errors): `RealQuantity`
only passes the output of `%f`, or a string holding the separating space. -/
def ParseFloat (s : List Char) : Except Error Float64 :=
  let neg := s.head? = some '-'
  let body := if s.head? = some '-' ∨ s.head? = some '+' then s.drop 1 else s
  let low := body.map asciiLower
  if low = ['i', 'n', 'f'] ∨ low = ['i', 'n', 'f', 'i', 'n', 'i', 't', 'y'] then
    .ok (.inf neg)
  else if s.map asciiLower = ['n', 'a', 'n'] then .ok .nan
  else
    match parseDecimal body with
    | none => .error "strconv.ParseFloat: invalid syntax"
    | some (d, k) =>
      match Float64.round neg d (10 ^ k) with
      | .fin a m e => .ok (.fin a m e)
      | _ => .error "strconv.ParseFloat: value out of range"

/-! ## Strings -/

/-- UTF-8 encoding of one code point. -/
def utf8Bytes (c : Char) : List Nat :=
  if c.toNat < 128 then [c.toNat]
  else if c.toNat < 2048 then [192 + c.toNat / 64, 128 + c.toNat % 64]
  else if c.toNat < 65536 then
    [224 + c.toNat / 4096, 128 + c.toNat / 64 % 64, 128 + c.toNat % 64]
  else
    [240 + c.toNat / 262144, 128 + c.toNat / 4096 % 64, 128 + c.toNat / 64 % 64,
      128 + c.toNat % 64]

/-- The bytes of a string. -/
def utf8 (s : List Char) : List Nat :=
  match s with
  | [] => []
  | c :: cs => utf8Bytes c ++ utf8 cs

/-- The routine `strings.ToLower`: `unicode.ToLower` on every code point. -/
def ToLower (rt : Runtime) (s : List Char) : List Char :=
  s.map (fun c => if c.toNat < 128 then asciiLower c else rt.unicodeToLower c)

/-- The routine `strings.TrimSuffix`. -/
def TrimSuffix (s suffix : List Char) : List Char :=
  if suffix.isSuffixOf s then s.take (s.length - suffix.length) else s

/-- Position of the last element satisfying `p` (`strings.LastIndexAny`;
`none` is `-1`). -/
def lastIndexAny (s : List Char) (p : Char → Bool) : Option Nat :=
  match s with
  | [] => none
  | c :: cs =>
    match lastIndexAny cs p with
    | some i => some (i + 1)
    | none => if p c then some 0 else none

/-- Membership in the cutset `"01234567890. "` of `parseSize`. -/
def isSizeChar (c : Char) : Bool := isDigit c || c == '.' || c == ' '

/-! ## docker/go-units: `FromHumanSize` -/

/-- The table `decimalMap` of go-units, keyed by a byte. -/
def decimalMap (b : Nat) : Option Nat :=
  if b = 107 then some 1000
  else if b = 109 then some (1000 ^ 2)
  else if b = 103 then some (1000 ^ 3)
  else if b = 116 then some (1000 ^ 4)
  else if b = 112 then some (1000 ^ 5)
  else none

/-- The error return of `parseSize` for a bad suffix. -/
def badSuffix : Int × Option Error := (-1, some "invalid suffix")

/-- The second half of `parseSize`: the suffix applied to the parsed number. -/
def parseSuffix (rt : Runtime) (size : Float64) (sfx : List Char) (uMap : Nat → Option Nat) :
    Int × Option Error :=
  if (utf8 sfx).length = 0 then (size.toInt64 rt, none)
  else if 3 < (utf8 sfx).length then badSuffix
  else
    let sfx := utf8 (ToLower rt sfx)
    if sfx.head? = some 98 then
      if 1 < sfx.length then badSuffix else (size.toInt64 rt, none)
    else
      match sfx.head?.bind uMap with
      | none => badSuffix
      | some mul =>
        let size := size.mul (Float64.ofNat mul)
        if sfx.length = 2 ∧ sfx[1]? ≠ some 98 then badSuffix
        else if sfx.length = 3 ∧ sfx.drop 1 ≠ [105, 98] then badSuffix
        else (size.toInt64 rt, none)

/-- The function `parseSize` of go-units v0.5.0 (`size.go`): split at the last
character of `"01234567890. "`, parse the number, reject a negative one, apply
the suffix.  Every error return of the library is `return -1, err`. -/
def parseSize (rt : Runtime) (sizeStr : List Char) (uMap : Nat → Option Nat) :
    Int × Option Error :=
  match lastIndexAny sizeStr isSizeChar with
  | none => (-1, some "invalid size")
  | some sep =>
    let num := if sizeStr[sep]? ≠ some ' ' then sizeStr.take (sep + 1) else sizeStr.take sep
    let sfx := sizeStr.drop (sep + 1)
    match ParseFloat num with
    | .error err => (-1, some err)
    | .ok size =>
      if size.ltZero then (-1, some "invalid size")
      else parseSuffix rt size sfx uMap

/-- The function `units.FromHumanSize`. -/
def FromHumanSize (rt : Runtime) (size : List Char) : Int × Option Error :=
  parseSize rt size decimalMap

/-! ## Data model -/

structure CloudProject where
  ProjectId : String
  ProjectName : String
  deriving DecidableEq, Repr

structure Quantity where
  Unit : String
  Value : Float64
  deriving DecidableEq, Repr

structure Bandwidth where
  Quantity : Quantity
  TotalPrice : Float64
  deriving DecidableEq, Repr

structure Stored where
  Quantity : Quantity
  TotalPrice : Float64
  deriving DecidableEq, Repr

/-- A storage entry of the usage document (`Type_` is the field `Type`). -/
structure Storage where
  BucketName : String
  IncomingBandwidth : Bandwidth
  IncomingInternalBandwidth : Bandwidth
  OutgoingBandwidth : Bandwidth
  OutgoingInternalBandwidth : Bandwidth
  Stored : Stored
  Type_ : String
  Region : String
  deriving DecidableEq, Repr

structure HourlyUsage where
  Storage : List Storage
  deriving DecidableEq, Repr

structure CloudProjectUsage where
  HourlyUsage : HourlyUsage
  deriving DecidableEq, Repr

/-- The provider client during one call: the outcome of `client.Get(path, &out)`
for each of the three shapes of `out` the program decodes into. -/
structure Client where
  getProjectIds : String → Except Error (List String)
  getProject : String → Except Error CloudProject
  getUsage : String → Except Error CloudProjectUsage

/-! ## The program -/

/-- The call `fmt.Sprintf("%f %s", value, unit)`. -/
def Sprintf_f_s (value : Float64) (unit : List Char) : List Char :=
  formatF value ++ [' '] ++ unit

/-- The function `RealQuantity`; the error of `FromHumanSize` is logged and the
integer it came with is returned. -/
def RealQuantity (rt : Runtime) (quantity : Quantity) : Int :=
  (FromHumanSize rt
    (Sprintf_f_s quantity.Value (TrimSuffix quantity.Unit.toList ['h']))).1

/-- The path `fmt.Sprintf("/cloud/project/%s", id)`. -/
def projectPath (id : String) : String := "/cloud/project/" ++ id

/-- The loop of `GetPublicCloudProjects` over the project ids, with the
projects appended so far. -/
def GetPublicCloudProjects.loop (client : Client) :
    List String → List CloudProject → List CloudProject × Option Error
  | [], cloudProjects => (cloudProjects, none)
  | id :: ids, cloudProjects =>
    match client.getProject (projectPath id) with
    | .error err => ([], some err)
    | .ok cloudProject => GetPublicCloudProjects.loop client ids (cloudProjects ++ [cloudProject])

/-- The function `GetPublicCloudProjects`: the pair (projects, error). -/
def GetPublicCloudProjects (client : Client) : List CloudProject × Option Error :=
  match client.getProjectIds "/cloud/project" with
  | .error err => ([], some err)
  | .ok projectIds => GetPublicCloudProjects.loop client projectIds []

/-! ## The metric registry -/

/-- The label values of one series, in the order of the label names
`project_name`, `bucket_name`, `region`, `type`. -/
structure LabelSet where
  project_name : String
  bucket_name : String
  region : String
  type : String
  deriving DecidableEq, Repr

/-- A gauge vector: the value last set for each label combination, `none`
where the series does not exist. -/
abbrev GaugeVec := LabelSet → Option Float64

/-- The call `vec.With(labels).Set(value)`: creates the series or overwrites it. -/
def GaugeVec.set (vec : GaugeVec) (labels : LabelSet) (value : Float64) : GaugeVec :=
  fun l => if l = labels then some value else vec l

/-- The five gauge vectors of `Metrics`. -/
structure Metrics where
  cloudProjectUsageStorageIncomingBandwidth : GaugeVec
  cloudProjectUsageStorageIncomingInternalBandwidth : GaugeVec
  cloudProjectUsageStorageOutgoingBandwidth : GaugeVec
  cloudProjectUsageStorageOutgoingInternalBandwidth : GaugeVec
  cloudProjectUsageStorageStored : GaugeVec

/-- The five measurement kinds. -/
inductive Kind where
  | incomingBandwidth
  | incomingInternalBandwidth
  | outgoingBandwidth
  | outgoingInternalBandwidth
  | stored
  deriving DecidableEq, Repr

/-- The gauge vector of a measurement kind. -/
def Metrics.vec (m : Metrics) : Kind → GaugeVec
  | .incomingBandwidth => m.cloudProjectUsageStorageIncomingBandwidth
  | .incomingInternalBandwidth => m.cloudProjectUsageStorageIncomingInternalBandwidth
  | .outgoingBandwidth => m.cloudProjectUsageStorageOutgoingBandwidth
  | .outgoingInternalBandwidth => m.cloudProjectUsageStorageOutgoingInternalBandwidth
  | .stored => m.cloudProjectUsageStorageStored

/-- One executed `Set` call. -/
structure SetCall where
  kind : Kind
  labels : LabelSet
  value : Float64
  deriving DecidableEq, Repr

/-- The registry together with the record of the `Set` calls executed so far
(oldest first). -/
structure State where
  metrics : Metrics
  calls : List SetCall

/-- The statement `metrics.<kind>.With(labels).Set(value)`. -/
def State.set (st : State) (kind : Kind) (labels : LabelSet) (value : Float64) : State :=
  { metrics :=
      match kind with
      | .incomingBandwidth =>
        { st.metrics with cloudProjectUsageStorageIncomingBandwidth :=
            st.metrics.cloudProjectUsageStorageIncomingBandwidth.set labels value }
      | .incomingInternalBandwidth =>
        { st.metrics with cloudProjectUsageStorageIncomingInternalBandwidth :=
            st.metrics.cloudProjectUsageStorageIncomingInternalBandwidth.set labels value }
      | .outgoingBandwidth =>
        { st.metrics with cloudProjectUsageStorageOutgoingBandwidth :=
            st.metrics.cloudProjectUsageStorageOutgoingBandwidth.set labels value }
      | .outgoingInternalBandwidth =>
        { st.metrics with cloudProjectUsageStorageOutgoingInternalBandwidth :=
            st.metrics.cloudProjectUsageStorageOutgoingInternalBandwidth.set labels value }
      | .stored =>
        { st.metrics with cloudProjectUsageStorageStored :=
            st.metrics.cloudProjectUsageStorageStored.set labels value }
    calls := st.calls ++ [⟨kind, labels, value⟩] }

/-- The label map built for one storage entry of one project. -/
def labelsOf (cloudProject : CloudProject) (storage : Storage) : LabelSet :=
  { project_name := cloudProject.ProjectName
    bucket_name := storage.BucketName
    region := storage.Region
    type := storage.Type_ }

/-- Body of the inner loop of `RecordCloudProjectMetrics`: one storage entry. -/
def recordStorage (rt : Runtime) (cloudProject : CloudProject) (st : State)
    (storage : Storage) : State :=
  if storage.BucketName = "" then st
  else
    let labels := labelsOf cloudProject storage
    let st := st.set .incomingBandwidth labels
      (Float64.ofInt (RealQuantity rt storage.IncomingBandwidth.Quantity))
    let st := st.set .incomingInternalBandwidth labels
      (Float64.ofInt (RealQuantity rt storage.IncomingInternalBandwidth.Quantity))
    let st := st.set .outgoingBandwidth labels
      (Float64.ofInt (RealQuantity rt storage.OutgoingBandwidth.Quantity))
    let st := st.set .outgoingInternalBandwidth labels
      (Float64.ofInt (RealQuantity rt storage.OutgoingInternalBandwidth.Quantity))
    st.set .stored labels (Float64.ofInt (RealQuantity rt storage.Stored.Quantity))

/-- The path `fmt.Sprintf("/cloud/project/%s/usage/current", cloudProject.ProjectId)`. -/
def usagePath (cloudProject : CloudProject) : String :=
  "/cloud/project/" ++ cloudProject.ProjectId ++ "/usage/current"

/-- Body of the outer loop of `RecordCloudProjectMetrics`: one project.  A
failed fetch is logged and the loop continues. -/
def recordProject (rt : Runtime) (client : Client) (st : State)
    (cloudProject : CloudProject) : State :=
  match client.getUsage (usagePath cloudProject) with
  | .error _ => st
  | .ok cloudProjectUsage =>
    cloudProjectUsage.HourlyUsage.Storage.foldl (recordStorage rt cloudProject) st

/-- The function `RecordCloudProjectMetrics`: one pass over the projects. -/
def RecordCloudProjectMetrics (rt : Runtime) (client : Client) (st : State)
    (cloudProjects : List CloudProject) : State :=
  cloudProjects.foldl (recordProject rt client) st

/-! ## Notions used to state the properties -/

/-- The usage fetch of a project succeeds. -/
def fetchSucceeds (client : Client) (p : CloudProject) : Bool :=
  match client.getUsage (usagePath p) with
  | .ok _ => true
  | .error _ => false

/-- The storage entries of a usage document that carry a bucket name. -/
def namedEntries (usage : CloudProjectUsage) : List Storage :=
  usage.HourlyUsage.Storage.filter (fun s => decide (s.BucketName ≠ ""))

/-- The usage records of a project in one pass: the named entries of its
usage document, none when the fetch fails. -/
def projectRecords (client : Client) (p : CloudProject) : List Storage :=
  match client.getUsage (usagePath p) with
  | .ok usage => namedEntries usage
  | .error _ => []

/-- The label sets the usage records of one pass map to, in order. -/
def passLabels (client : Client) (ps : List CloudProject) : List LabelSet :=
  ps.flatMap (fun p => (projectRecords client p).map (labelsOf p))

/-- The five `Set` calls of one usage record. -/
def entryCalls (rt : Runtime) (p : CloudProject) (s : Storage) : List SetCall :=
  [ ⟨.incomingBandwidth, labelsOf p s,
      Float64.ofInt (RealQuantity rt s.IncomingBandwidth.Quantity)⟩,
    ⟨.incomingInternalBandwidth, labelsOf p s,
      Float64.ofInt (RealQuantity rt s.IncomingInternalBandwidth.Quantity)⟩,
    ⟨.outgoingBandwidth, labelsOf p s,
      Float64.ofInt (RealQuantity rt s.OutgoingBandwidth.Quantity)⟩,
    ⟨.outgoingInternalBandwidth, labelsOf p s,
      Float64.ofInt (RealQuantity rt s.OutgoingInternalBandwidth.Quantity)⟩,
    ⟨.stored, labelsOf p s, Float64.ofInt (RealQuantity rt s.Stored.Quantity)⟩ ]

/-- The `Set` calls one project contributes to a pass. -/
def projectCalls (rt : Runtime) (client : Client) (p : CloudProject) : List SetCall :=
  (projectRecords client p).flatMap (entryCalls rt p)

/-- The `Set` calls of one pass. -/
def passCalls (rt : Runtime) (client : Client) (ps : List CloudProject) : List SetCall :=
  ps.flatMap (projectCalls rt client)

/-- Executing a list of `Set` calls in order. -/
def replay (st : State) (cs : List SetCall) : State :=
  cs.foldl (fun st c => st.set c.kind c.labels c.value) st

/-- The measurement kind and label set a `Set` call writes. -/
def SetCall.key (c : SetCall) : Kind × LabelSet := (c.kind, c.labels)

/-- The `Set` calls a pass started in `st` has added to the record. -/
def callsOfPass (rt : Runtime) (client : Client) (st : State) (ps : List CloudProject) :
    List SetCall :=
  (RecordCloudProjectMetrics rt client st ps).calls.drop st.calls.length

/-- A finite float64 within the format: at most 53 significant bits and an
exponent between `-1074` and `971`.  NaN and the infinities qualify. -/
def Float64.Canonical : Float64 → Prop
  | .fin _ m e => m < 2 ^ 53 ∧ -1074 ≤ e ∧ e ≤ 971
  | _ => True

/-- The normal form of the mantissa and exponent of a finite float64: a full
53-bit mantissa, or the least exponent (subnormals and zero). -/
def Float64.Normal : Float64 → Prop
  | .fin _ m e => (2 ^ 52 ≤ m ∧ m < 2 ^ 53 ∧ -1074 ≤ e ∧ e ≤ 971) ∨ (m < 2 ^ 52 ∧ e = -1074)
  | _ => True

/-- The value as `%f` renders it: the float64 nearest to the value rounded
(ties to even) to six decimal places. -/
def sixDecimals : Float64 → Float64
  | .fin neg m e => Float64.round neg (scaled6 m e) (10 ^ 6)
  | x => x

/-- The size units `B`, `kB`, `MB`, `GB`, `TB`, `PB`, by the exponent `k` of
their multiplier `1000^k`. -/
def sizeUnit (k : Nat) : String :=
  match k with
  | 0 => "B"
  | 1 => "kB"
  | 2 => "MB"
  | 3 => "GB"
  | 4 => "TB"
  | _ => "PB"

/-- The reference human-size conversion, in the claim's words: the value
multiplied by the multiplier `1000^k` of the unit and truncated to an integer
(float64 product, conversion to int64). -/
def referenceBytes (rt : Runtime) (value : Float64) (k : Nat) : Int :=
  (value.mul (Float64.ofNat (1000 ^ k))).toInt64 rt

/-- The identity of the bucket of a storage entry within its project: the
part of the label set the entry contributes (bucket name, region, type). -/
def bucketIdentity (s : Storage) : String × String × String :=
  (s.BucketName, s.Region, s.Type_)

/-! ## Concrete inputs -/

/-- A runtime to evaluate the model with: unrepresentable conversions give the
smallest int64 (as on amd64); the lower-case table outside ASCII is left as the
identity, which is not consulted on ASCII strings. -/
def sampleRuntime : Runtime :=
  { unicodeToLower := fun c => c
    int64OfUnrepresentable := fun _ => -(2 : Int) ^ 63 }

/-- The registry before the first pass. -/
def State.empty : State :=
  { metrics := ⟨fun _ => none, fun _ => none, fun _ => none, fun _ => none, fun _ => none⟩
    calls := [] }

/-- The quantity `n` GB, `n` a whole number. -/
def gigabytes (n : Nat) : Quantity := { Unit := "GB", Value := Float64.ofNat n }

/-- A storage entry whose five quantities are `n`, `n+1`, ..., `n+4` GB. -/
def sampleEntry (bucket : String) (n : Nat) : Storage :=
  { BucketName := bucket
    IncomingBandwidth := ⟨gigabytes n, Float64.ofNat 0⟩
    IncomingInternalBandwidth := ⟨gigabytes (n + 1), Float64.ofNat 0⟩
    OutgoingBandwidth := ⟨gigabytes (n + 2), Float64.ofNat 0⟩
    OutgoingInternalBandwidth := ⟨gigabytes (n + 3), Float64.ofNat 0⟩
    Stored := ⟨gigabytes (n + 4), Float64.ofNat 0⟩
    Type_ := "pcs"
    Region := "GRA" }

/-- The float64 nearest to `0.0000001` (what the JSON number `0.0000001`
decodes to). -/
def tenMillionth : Float64 := Float64.round false 1 (10 ^ 7)

/-- The float64 `0.5`. -/
def oneHalf : Float64 := Float64.round false 1 2

/-- Two projects with distinct ids and distinct names. -/
def projectA : CloudProject := { ProjectId := "p1", ProjectName := "alpha" }

/-- Second project of the samples. -/
def projectB : CloudProject := { ProjectId := "p2", ProjectName := "beta" }

/-- A usage document with one placeholder entry and one named entry. -/
def usageB : CloudProjectUsage := ⟨⟨[sampleEntry "" 1, sampleEntry "logs" 10]⟩⟩

/-- A client whose usage fetch fails for `p1` and succeeds for `p2`; discovery
lists `p1`, `p2` and the detail fetch of `p1` fails. -/
def sampleClient : Client :=
  { getProjectIds := fun path =>
      if path = "/cloud/project" then .ok ["p1", "p2"] else .error "not found"
    getProject := fun path =>
      if path = "/cloud/project/p2" then .ok projectB else .error "unavailable"
    getUsage := fun path =>
      if path = "/cloud/project/p2/usage/current" then .ok usageB else .error "unavailable" }

/-- A client that answers every usage fetch with `usageB`. -/
def healthyClient : Client :=
  { getProjectIds := fun _ => .ok ["p1", "p2"]
    getProject := fun path =>
      if path = "/cloud/project/p1" then .ok projectA else .ok projectB
    getUsage := fun _ => .ok usageB }

/-- A usage document with the bucket name `logs` in two regions. -/
def regionalUsage : CloudProjectUsage :=
  ⟨⟨[sampleEntry "logs" 1, { sampleEntry "logs" 20 with Region := "SBG" }]⟩⟩

/-- A client that answers every usage fetch with `regionalUsage`. -/
def regionalClient : Client :=
  { getProjectIds := fun _ => .ok ["p1", "p2"]
    getProject := fun path =>
      if path = "/cloud/project/p1" then .ok projectA else .ok projectB
    getUsage := fun _ => .ok regionalUsage }

/-- Two projects with distinct ids and the same display name. -/
def twinProjects : List CloudProject :=
  [{ ProjectId := "p1", ProjectName := "prod" }, { ProjectId := "p2", ProjectName := "prod" }]

/-- A client in which each of the twin projects has one bucket named `logs`,
with different usage. -/
def twinClient : Client :=
  { getProjectIds := fun _ => .ok ["p1", "p2"]
    getProject := fun path =>
      if path = "/cloud/project/p1" then .ok ⟨"p1", "prod"⟩ else .ok ⟨"p2", "prod"⟩
    getUsage := fun path =>
      if path = "/cloud/project/p1/usage/current" then .ok ⟨⟨[sampleEntry "logs" 1]⟩⟩
      else .ok ⟨⟨[sampleEntry "logs" 7]⟩⟩ }

/-! ## The pass as a sequence of `Set` calls -/

theorem replay_append (st : State) (a b : List SetCall) :
    replay st (a ++ b) = replay (replay st a) b := by
  simp [replay, List.foldl_append]

theorem recordStorage_eq_replay (rt : Runtime) (p : CloudProject) (st : State) (s : Storage) :
    recordStorage rt p st s
      = replay st (if s.BucketName = "" then [] else entryCalls rt p s) := by
  unfold recordStorage
  split
  · rfl
  · rfl

theorem foldl_recordStorage (rt : Runtime) (p : CloudProject) (ss : List Storage) (st : State) :
    ss.foldl (recordStorage rt p) st
      = replay st ((ss.filter (fun s => decide (s.BucketName ≠ ""))).flatMap (entryCalls rt p)) := by
  induction ss generalizing st with
  | nil => rfl
  | cons s ss ih =>
    rw [List.foldl_cons, ih, recordStorage_eq_replay]
    by_cases h : s.BucketName = ""
    · simp [h, replay]
    · simp only [h, if_false, List.filter_cons, ne_eq, not_false_eq_true, decide_True,
        if_true, List.flatMap_cons]
      rw [replay_append]

theorem recordProject_eq_replay (rt : Runtime) (client : Client) (st : State)
    (p : CloudProject) : recordProject rt client st p = replay st (projectCalls rt client p) := by
  unfold recordProject projectCalls projectRecords
  cases client.getUsage (usagePath p) with
  | error e => rfl
  | ok usage => exact foldl_recordStorage rt p _ st

theorem pass_eq_replay (rt : Runtime) (client : Client) (ps : List CloudProject) (st : State) :
    RecordCloudProjectMetrics rt client st ps = replay st (passCalls rt client ps) := by
  induction ps generalizing st with
  | nil => rfl
  | cons p ps ih =>
    have h := ih (recordProject rt client st p)
    unfold RecordCloudProjectMetrics at h ⊢
    rw [List.foldl_cons, h, recordProject_eq_replay]
    show _ = replay st (projectCalls rt client p ++ passCalls rt client ps)
    rw [replay_append]

theorem replay_calls (cs : List SetCall) (st : State) :
    (replay st cs).calls = st.calls ++ cs := by
  induction cs generalizing st with
  | nil => simp [replay]
  | cons c cs ih =>
    have h := ih (st.set c.kind c.labels c.value)
    simp only [replay, List.foldl_cons] at h ⊢
    rw [h]
    simp [State.set]

theorem set_vec (st : State) (k : Kind) (l : LabelSet) (v : Float64) (k' : Kind)
    (l' : LabelSet) :
    (st.set k l v).metrics.vec k' l'
      = if k' = k ∧ l' = l then some v else st.metrics.vec k' l' := by
  cases k <;> cases k' <;> simp [State.set, Metrics.vec, GaugeVec.set]

theorem replay_vec_of_not_mem (cs : List SetCall) (st : State) (k : Kind) (l : LabelSet)
    (h : ∀ c ∈ cs, c.key ≠ (k, l)) :
    (replay st cs).metrics.vec k l = st.metrics.vec k l := by
  induction cs generalizing st with
  | nil => rfl
  | cons c cs ih =>
    have h1 := ih (st.set c.kind c.labels c.value) (fun d hd => h d (List.mem_cons_of_mem _ hd))
    simp only [replay, List.foldl_cons] at h1 ⊢
    rw [h1, set_vec]
    have hc := h c (List.mem_cons_self _ _)
    have : ¬ (k = c.kind ∧ l = c.labels) := by
      rintro ⟨rfl, rfl⟩
      exact hc rfl
    simp [this]

theorem replay_vec_isSome (cs : List SetCall) (st : State) (k : Kind) (l : LabelSet)
    (h : (st.metrics.vec k l).isSome) : ((replay st cs).metrics.vec k l).isSome := by
  induction cs generalizing st with
  | nil => exact h
  | cons c cs ih =>
    have h1 := ih (st.set c.kind c.labels c.value)
    simp only [replay, List.foldl_cons] at h1 ⊢
    apply h1
    rw [set_vec]
    split
    · rfl
    · exact h

theorem entryCalls_labels (rt : Runtime) (p : CloudProject) (s : Storage) :
    ∀ c ∈ entryCalls rt p s, c.labels = labelsOf p s := by
  intro c hc
  simp only [entryCalls, List.mem_cons, List.mem_singleton, List.not_mem_nil, or_false] at hc
  rcases hc with rfl | rfl | rfl | rfl | rfl <;> rfl

theorem projectCalls_labels (rt : Runtime) (client : Client) (p : CloudProject) :
    ∀ c ∈ projectCalls rt client p, ∃ s ∈ projectRecords client p, c.labels = labelsOf p s := by
  intro c hc
  simp only [projectCalls, List.mem_flatMap] at hc
  obtain ⟨s, hs, hcs⟩ := hc
  exact ⟨s, hs, entryCalls_labels rt p s c hcs⟩

theorem passCalls_labels (rt : Runtime) (client : Client) (ps : List CloudProject) :
    ∀ c ∈ passCalls rt client ps, c.labels ∈ passLabels client ps := by
  intro c hc
  simp only [passCalls, List.mem_flatMap] at hc
  obtain ⟨p, hp, hcp⟩ := hc
  obtain ⟨s, hs, hl⟩ := projectCalls_labels rt client p c hcp
  simp only [passLabels, List.mem_flatMap, List.mem_map]
  exact ⟨p, hp, s, hs, hl.symm⟩

theorem callsOfPass_eq (rt : Runtime) (client : Client) (st : State) (ps : List CloudProject) :
    callsOfPass rt client st ps = passCalls rt client ps := by
  simp [callsOfPass, pass_eq_replay, replay_calls]

theorem entryCalls_keys_nodup (rt : Runtime) (p : CloudProject) (s : Storage) :
    ((entryCalls rt p s).map SetCall.key).Nodup := by
  simp [entryCalls, SetCall.key]

theorem projectCalls_length (rt : Runtime) (client : Client) (p : CloudProject) :
    (projectCalls rt client p).length = 5 * (projectRecords client p).length := by
  unfold projectCalls
  induction projectRecords client p with
  | nil => rfl
  | cons s ss ih =>
    rw [List.flatMap_cons, List.length_append, ih, List.length_cons]
    simp only [entryCalls, List.length_cons, List.length_nil]
    omega

theorem projectRecords_named (client : Client) (p : CloudProject) :
    ∀ s ∈ projectRecords client p, s.BucketName ≠ "" := by
  intro s hs
  unfold projectRecords at hs
  cases h : client.getUsage (usagePath p) with
  | error e => simp [h] at hs
  | ok usage =>
    simp only [h, namedEntries, List.mem_filter, decide_eq_true_eq] at hs
    exact hs.2

/-! ## C5: five `Set` calls per named entry -/

/-- C5: in a pass over `pre ++ p :: post`, when the usage fetch of `p` succeeds
with document `usage`, the record of `Set` calls after the pass is the record
after the projects before `p`, then the calls made for `p`, then those of the
later projects; the calls made for `p` number exactly five times the entries of
`usage` that have a non-empty bucket name, and none of them carries an empty
bucket name (an entry without bucket name is skipped, not published). -/
theorem record_project_five_sets_per_named_entry (rt : Runtime) (client : Client)
    (st : State) (pre post : List CloudProject) (p : CloudProject) (usage : CloudProjectUsage)
    (hfetch : client.getUsage (usagePath p) = .ok usage) :
    (RecordCloudProjectMetrics rt client st (pre ++ p :: post)).calls
        = (RecordCloudProjectMetrics rt client st pre).calls
            ++ projectCalls rt client p ++ passCalls rt client post
      ∧ (projectCalls rt client p).length
          = 5 * (usage.HourlyUsage.Storage.filter (fun s => decide (s.BucketName ≠ ""))).length
      ∧ ∀ c ∈ projectCalls rt client p, c.labels.bucket_name ≠ "" := by
  refine ⟨?_, ?_, ?_⟩
  · simp only [pass_eq_replay, replay_calls, passCalls, List.flatMap_append,
      List.flatMap_cons, List.append_assoc]
  · rw [projectCalls_length]
    simp [projectRecords, hfetch, namedEntries]
  · intro c hc
    obtain ⟨s, hs, hl⟩ := projectCalls_labels rt client p c hc
    rw [hl]
    exact projectRecords_named client p s hs

/-- C5 at a concrete input: project `p2` of `sampleClient` has one placeholder
entry and one named entry. -/
theorem record_project_five_sets_per_named_entry_witness :
    sampleClient.getUsage (usagePath projectB) = .ok usageB
      ∧ ((RecordCloudProjectMetrics sampleRuntime sampleClient State.empty
            ([projectA] ++ projectB :: [])).calls
          = (RecordCloudProjectMetrics sampleRuntime sampleClient State.empty [projectA]).calls
              ++ projectCalls sampleRuntime sampleClient projectB
              ++ passCalls sampleRuntime sampleClient []
        ∧ (projectCalls sampleRuntime sampleClient projectB).length
            = 5 * (usageB.HourlyUsage.Storage.filter
                (fun s => decide (s.BucketName ≠ ""))).length
        ∧ ∀ c ∈ projectCalls sampleRuntime sampleClient projectB, c.labels.bucket_name ≠ "") :=
  ⟨rfl, record_project_five_sets_per_named_entry sampleRuntime sampleClient State.empty
    [projectA] [] projectB usageB rfl⟩

/-! ## C6: a failed fetch is isolated -/

theorem projectCalls_congr (rt : Runtime) (client client' : Client) (p : CloudProject)
    (h : client'.getUsage (usagePath p) = client.getUsage (usagePath p)) :
    projectCalls rt client' p = projectCalls rt client p := by
  simp [projectCalls, projectRecords, h]

theorem projectCalls_of_failed (rt : Runtime) (client : Client) (p : CloudProject)
    (h : fetchSucceeds client p = false) : projectCalls rt client p = [] := by
  unfold fetchSucceeds at h
  unfold projectCalls projectRecords
  cases hg : client.getUsage (usagePath p) with
  | error e => rfl
  | ok usage => simp [hg] at h

theorem passCalls_filter (rt : Runtime) (client client' : Client) (ps : List CloudProject)
    (h : ∀ p ∈ ps, fetchSucceeds client p = true →
      client'.getUsage (usagePath p) = client.getUsage (usagePath p)) :
    passCalls rt client ps = passCalls rt client' (ps.filter (fetchSucceeds client)) := by
  induction ps with
  | nil => rfl
  | cons p ps ih =>
    have ih1 := ih (fun q hq => h q (List.mem_cons_of_mem _ hq))
    unfold passCalls at ih1 ⊢
    by_cases hp : fetchSucceeds client p = true
    · simp only [List.filter_cons, hp, if_true, List.flatMap_cons]
      rw [ih1, projectCalls_congr rt client client' p (h p (List.mem_cons_self _ _) hp)]
    · simp only [List.filter_cons, hp, if_false, List.flatMap_cons]
      rw [ih1, projectCalls_of_failed rt client p (by simpa using hp)]
      rfl

/-- C6: one pass with any outcomes of the usage fetches leaves the registry and
the record of `Set` calls exactly as the pass over the successfully fetched
projects alone does, whatever the client answers for the other projects: a
failed fetch, at any position, neither stops the pass nor changes what is
published for the projects before or after it. -/
theorem failed_fetch_is_isolated (rt : Runtime) (client client' : Client) (st : State)
    (ps : List CloudProject)
    (h : ∀ p ∈ ps, fetchSucceeds client p = true →
      client'.getUsage (usagePath p) = client.getUsage (usagePath p)) :
    RecordCloudProjectMetrics rt client st ps
      = RecordCloudProjectMetrics rt client' st (ps.filter (fetchSucceeds client)) := by
  rw [pass_eq_replay, pass_eq_replay, passCalls_filter rt client client' ps h]

/-- C6 at a concrete input: the fetch of `p1` fails, that of `p2` succeeds. -/
theorem failed_fetch_is_isolated_witness :
    (∀ p ∈ [projectA, projectB], fetchSucceeds sampleClient p = true →
        healthyClient.getUsage (usagePath p) = sampleClient.getUsage (usagePath p))
      ∧ RecordCloudProjectMetrics sampleRuntime sampleClient State.empty [projectA, projectB]
          = RecordCloudProjectMetrics sampleRuntime healthyClient State.empty
              ([projectA, projectB].filter (fetchSucceeds sampleClient)) :=
  have h : ∀ p ∈ [projectA, projectB], fetchSucceeds sampleClient p = true →
      healthyClient.getUsage (usagePath p) = sampleClient.getUsage (usagePath p) := by
    intro p hp
    simp only [List.mem_cons, List.mem_singleton, List.not_mem_nil, or_false] at hp
    rcases hp with rfl | rfl
    · intro hs
      exact absurd hs (by decide)
    · intro _
      rfl
  ⟨h, failed_fetch_is_isolated sampleRuntime sampleClient healthyClient State.empty
    [projectA, projectB] h⟩

/-! ## C7: discovery is fail-fast -/

theorem loop_spec (client : Client) (ids : List String) (acc : List CloudProject) :
    (∃ ps, ids.map (fun id => client.getProject (projectPath id)) = ps.map Except.ok
        ∧ GetPublicCloudProjects.loop client ids acc = (acc ++ ps, none))
      ∨ ((∃ id ∈ ids, ∃ err, client.getProject (projectPath id) = .error err)
        ∧ ∃ err, GetPublicCloudProjects.loop client ids acc = ([], some err)) := by
  induction ids generalizing acc with
  | nil => exact Or.inl ⟨[], rfl, by simp [GetPublicCloudProjects.loop]⟩
  | cons id ids ih =>
    unfold GetPublicCloudProjects.loop
    cases hg : client.getProject (projectPath id) with
    | error err => exact Or.inr ⟨⟨id, List.mem_cons_self _ _, err, hg⟩, err, rfl⟩
    | ok cp =>
      rcases ih (acc ++ [cp]) with ⟨ps, hps, hl⟩ | ⟨⟨i, hi, e, he⟩, err, hl⟩
      · refine Or.inl ⟨cp :: ps, ?_, ?_⟩
        · simp [hg, hps]
        · simpa using hl
      · exact Or.inr ⟨⟨i, List.mem_cons_of_mem _ hi, e, he⟩, err, hl⟩

/-- C7: whenever `GetPublicCloudProjects` returns an error the project list it
returns is empty; it returns an error when the fetch of the id list fails and
when the detail fetch of any listed id fails; and when the id list and every
detail fetch succeed it returns no error and exactly the fetched projects, one
per id, in the order of the ids. -/
theorem get_public_cloud_projects_fail_fast (client : Client) :
    ((GetPublicCloudProjects client).2 ≠ none → (GetPublicCloudProjects client).1 = [])
      ∧ (∀ err, client.getProjectIds "/cloud/project" = .error err →
          GetPublicCloudProjects client = ([], some err))
      ∧ (∀ ids, client.getProjectIds "/cloud/project" = .ok ids →
          (∃ id ∈ ids, ∃ err, client.getProject (projectPath id) = .error err) →
          ∃ err, GetPublicCloudProjects client = ([], some err))
      ∧ (∀ ids ps, client.getProjectIds "/cloud/project" = .ok ids →
          ids.map (fun id => client.getProject (projectPath id)) = ps.map Except.ok →
          GetPublicCloudProjects client = (ps, none))
      ∧ ((GetPublicCloudProjects client).2 = none →
          ∃ ids, client.getProjectIds "/cloud/project" = .ok ids
            ∧ ids.map (fun id => client.getProject (projectPath id))
                = (GetPublicCloudProjects client).1.map Except.ok) := by
  unfold GetPublicCloudProjects
  cases hg : client.getProjectIds "/cloud/project" with
  | error err => simp
  | ok ids =>
    rcases loop_spec client ids [] with ⟨ps, hps, hl⟩ | ⟨⟨i, hi, e, he⟩, err, hl⟩
    · refine ⟨by simp [hl], by simp, ?_, ?_, ?_⟩
      · rintro ids' hids ⟨j, hj, e, he⟩
        cases hids
        have := congrArg (fun l => (Except.error e : Except Error CloudProject) ∈ l) hps
        simp only [List.mem_map] at this
        have h1 : ∃ a ∈ ids, client.getProject (projectPath a) = Except.error e := ⟨j, hj, he⟩
        rw [this] at h1
        obtain ⟨a, _, ha⟩ := h1
        cases ha
      · intro ids' ps' hids hps'
        cases hids
        have : ps' = ps := by
          have h2 : ps'.map (Except.ok : CloudProject → Except Error CloudProject)
              = ps.map Except.ok := by rw [← hps', hps]
          exact List.map_injective_iff.mpr (fun a b hab => by cases hab; rfl) h2
        simp [hl, this]
      · intro _
        exact ⟨ids, rfl, by simp [hl, hps]⟩
    · refine ⟨by simp [hl], by simp, ?_, ?_, ?_⟩
      · intro ids' hids _
        exact ⟨err, by simp [hl]⟩
      · intro ids' ps' hids hps'
        cases hids
        have := congrArg (fun l => (Except.error e : Except Error CloudProject) ∈ l) hps'
        simp only [List.mem_map] at this
        have h1 : ∃ a ∈ ids, client.getProject (projectPath a) = Except.error e := ⟨i, hi, he⟩
        rw [this] at h1
        obtain ⟨a, _, ha⟩ := h1
        cases ha
      · intro h
        simp [hl] at h

/-- C7 at a concrete input: discovery lists `p1`, `p2` and the detail fetch of
`p1` fails. -/
theorem get_public_cloud_projects_fail_fast_witness :
    ∃ err, GetPublicCloudProjects sampleClient = ([], some err) :=
  (get_public_cloud_projects_fail_fast sampleClient).2.2.1 ["p1", "p2"] rfl
    ⟨"p1", by simp, "unavailable", rfl⟩

/-! ## C8: one record per label set -/

theorem labelsOf_injective (p : CloudProject) (a b : Storage)
    (h : labelsOf p a = labelsOf p b) : bucketIdentity a = bucketIdentity b := by
  have h1 : a.BucketName = b.BucketName := congrArg LabelSet.bucket_name h
  have h2 : a.Region = b.Region := congrArg LabelSet.region h
  have h3 : a.Type_ = b.Type_ := congrArg LabelSet.type h
  simp [bucketIdentity, h1, h2, h3]

theorem projectCalls_keys_nodup (rt : Runtime) (client : Client) (p : CloudProject)
    (h : ((projectRecords client p).map bucketIdentity).Nodup) :
    ((projectCalls rt client p).map SetCall.key).Nodup := by
  unfold projectCalls
  rw [List.map_flatMap, List.nodup_flatMap]
  refine ⟨fun s _ => entryCalls_keys_nodup rt p s, ?_⟩
  rw [List.Nodup, List.pairwise_map] at h
  refine h.imp ?_
  intro a b hab
  show List.Disjoint ((entryCalls rt p a).map SetCall.key) ((entryCalls rt p b).map SetCall.key)
  intro k hka hkb
  simp only [List.mem_map] at hka hkb
  obtain ⟨c, hc, rfl⟩ := hka
  obtain ⟨d, hd, hcd⟩ := hkb
  have h1 := entryCalls_labels rt p a c hc
  have h2 := entryCalls_labels rt p b d hd
  have h3 : d.labels = c.labels := congrArg Prod.snd hcd
  rw [h1, h2] at h3
  exact hab (labelsOf_injective p a b h3.symm)

theorem passCalls_keys_nodup (rt : Runtime) (client : Client) (ps : List CloudProject)
    (hnames : (ps.map (fun p => p.ProjectName)).Nodup)
    (hbuckets : ∀ p ∈ ps, ((projectRecords client p).map bucketIdentity).Nodup) :
    ((passCalls rt client ps).map SetCall.key).Nodup := by
  unfold passCalls
  rw [List.map_flatMap, List.nodup_flatMap]
  refine ⟨fun p hp => projectCalls_keys_nodup rt client p (hbuckets p hp), ?_⟩
  rw [List.Nodup, List.pairwise_map] at hnames
  refine hnames.imp ?_
  intro a b hab
  show List.Disjoint ((projectCalls rt client a).map SetCall.key)
    ((projectCalls rt client b).map SetCall.key)
  intro k hka hkb
  simp only [List.mem_map] at hka hkb
  obtain ⟨c, hc, rfl⟩ := hka
  obtain ⟨d, hd, hcd⟩ := hkb
  obtain ⟨s, _, h1⟩ := projectCalls_labels rt client a c hc
  obtain ⟨t, _, h2⟩ := projectCalls_labels rt client b d hd
  have h3 : d.labels = c.labels := congrArg Prod.snd hcd
  rw [h1, h2] at h3
  exact hab (congrArg LabelSet.project_name h3).symm

theorem passLabels_nodup (client : Client) (ps : List CloudProject)
    (hnames : (ps.map (fun p => p.ProjectName)).Nodup)
    (hbuckets : ∀ p ∈ ps, ((projectRecords client p).map bucketIdentity).Nodup) :
    (passLabels client ps).Nodup := by
  unfold passLabels
  rw [List.nodup_flatMap]
  constructor
  · intro p hp
    have h := hbuckets p hp
    rw [List.Nodup, List.pairwise_map] at h ⊢
    exact h.imp (fun {a b} hab hl => hab (labelsOf_injective p a b hl))
  · rw [List.Nodup, List.pairwise_map] at hnames
    refine hnames.imp ?_
    intro a b hab
    show List.Disjoint ((projectRecords client a).map (labelsOf a))
      ((projectRecords client b).map (labelsOf b))
    intro l hla hlb
    simp only [List.mem_map] at hla hlb
    obtain ⟨s, _, rfl⟩ := hla
    obtain ⟨t, _, ht⟩ := hlb
    exact hab (congrArg LabelSet.project_name ht).symm

/-- C8, amended: in a pass over projects with pairwise distinct display names,
in which no two named entries of a project's usage document are entries for
the same bucket (same bucket name, region and type), no two usage records map
to the same label set, and no two `Set` calls of the pass write the same
series of the same measurement kind (no value set during the pass is
overwritten later in it). -/
theorem one_record_per_label_set (rt : Runtime) (client : Client) (st : State)
    (ps : List CloudProject)
    (hnames : (ps.map (fun p => p.ProjectName)).Nodup)
    (hbuckets : ∀ p ∈ ps, ((projectRecords client p).map bucketIdentity).Nodup) :
    (passLabels client ps).Nodup
      ∧ ((callsOfPass rt client st ps).map SetCall.key).Nodup := by
  rw [callsOfPass_eq]
  exact ⟨passLabels_nodup client ps hnames hbuckets,
    passCalls_keys_nodup rt client ps hnames hbuckets⟩

/-- C8, amended, at a concrete input: projects `alpha` and `beta`, each with
the bucket name `logs` in the two regions `GRA` and `SBG`. -/
theorem one_record_per_label_set_witness :
    ([projectA, projectB].map (fun p => p.ProjectName)).Nodup
      ∧ (∀ p ∈ [projectA, projectB],
          ((projectRecords regionalClient p).map bucketIdentity).Nodup)
      ∧ ((passLabels regionalClient [projectA, projectB]).Nodup
        ∧ ((callsOfPass sampleRuntime regionalClient State.empty [projectA, projectB]).map
            SetCall.key).Nodup) :=
  ⟨by decide, by decide,
    one_record_per_label_set sampleRuntime regionalClient State.empty [projectA, projectB]
      (by decide) (by decide)⟩

/-- C8 as stated fails: the twin projects have distinct ids, each usage
document has a single entry, yet both records map to the label set
`prod / logs / GRA / pcs`, every series is written twice in the pass, and the
value the first project set for the stored series (5 GB) is overwritten by the
second project's (11 GB). -/
theorem distinct_ids_do_not_separate_label_sets :
    (twinProjects.map (fun p => p.ProjectId)).Nodup
      ∧ (∀ p ∈ twinProjects, ∀ usage, twinClient.getUsage (usagePath p) = .ok usage →
          (usage.HourlyUsage.Storage.map (fun s => s.BucketName)).Nodup)
      ∧ ¬ (passLabels twinClient twinProjects).Nodup
      ∧ ¬ ((callsOfPass sampleRuntime twinClient State.empty twinProjects).map
            SetCall.key).Nodup
      ∧ (RecordCloudProjectMetrics sampleRuntime twinClient State.empty
            (twinProjects.take 1)).metrics.cloudProjectUsageStorageStored
            ⟨"prod", "logs", "GRA", "pcs"⟩ = some (Float64.ofNat 5000000000)
      ∧ (RecordCloudProjectMetrics sampleRuntime twinClient State.empty
            twinProjects).metrics.cloudProjectUsageStorageStored
            ⟨"prod", "logs", "GRA", "pcs"⟩ = some (Float64.ofNat 11000000000) := by
  refine ⟨by decide, ?_, by decide, ?_, ?_, ?_⟩
  · intro p hp usage hu
    simp only [twinProjects, List.mem_cons, List.mem_singleton, List.not_mem_nil,
      or_false] at hp
    rcases hp with rfl | rfl
    · cases hu
      decide
    · cases hu
      decide
  · rw [callsOfPass_eq]
    decide
  · decide
  · decide

/-! ## C9: a pass never removes a series -/

/-- C9: for every registry state and every pass, a series that exists before
the pass, in any of the five measurement kinds, exists after it, and a series
whose label set no usage record of the pass maps to keeps exactly the value it
had (or stays absent). -/
theorem pass_never_removes_series (rt : Runtime) (client : Client) (st : State)
    (ps : List CloudProject) (k : Kind) (l : LabelSet) :
    ((st.metrics.vec k l).isSome →
        ((RecordCloudProjectMetrics rt client st ps).metrics.vec k l).isSome)
      ∧ (l ∉ passLabels client ps →
        (RecordCloudProjectMetrics rt client st ps).metrics.vec k l = st.metrics.vec k l) := by
  rw [pass_eq_replay]
  refine ⟨replay_vec_isSome _ st k l, ?_⟩
  intro hl
  apply replay_vec_of_not_mem
  intro c hc hkey
  apply hl
  have h := passCalls_labels rt client ps c hc
  have : c.labels = l := congrArg Prod.snd hkey
  rwa [this] at h

/-! ## C10: the five series of a record -/

theorem replay_entryCalls_vec (rt : Runtime) (p : CloudProject) (s : Storage) (st : State) :
    let m := (replay st (entryCalls rt p s)).metrics
    m.cloudProjectUsageStorageIncomingBandwidth (labelsOf p s)
        = some (Float64.ofInt (RealQuantity rt s.IncomingBandwidth.Quantity))
      ∧ m.cloudProjectUsageStorageIncomingInternalBandwidth (labelsOf p s)
        = some (Float64.ofInt (RealQuantity rt s.IncomingInternalBandwidth.Quantity))
      ∧ m.cloudProjectUsageStorageOutgoingBandwidth (labelsOf p s)
        = some (Float64.ofInt (RealQuantity rt s.OutgoingBandwidth.Quantity))
      ∧ m.cloudProjectUsageStorageOutgoingInternalBandwidth (labelsOf p s)
        = some (Float64.ofInt (RealQuantity rt s.OutgoingInternalBandwidth.Quantity))
      ∧ m.cloudProjectUsageStorageStored (labelsOf p s)
        = some (Float64.ofInt (RealQuantity rt s.Stored.Quantity)) := by
  simp [replay, entryCalls, State.set, GaugeVec.set]

theorem replay_keeps (cs : List SetCall) (st : State) (l : LabelSet)
    (h : ∀ c ∈ cs, c.labels ≠ l) (k : Kind) :
    (replay st cs).metrics.vec k l = st.metrics.vec k l := by
  apply replay_vec_of_not_mem
  intro c hc hkey
  exact h c hc (congrArg Prod.snd hkey)

/-- C10: in a pass over `pre ++ p :: post` in which the usage fetch of `p`
succeeds, for every entry `s` of its usage document that has a non-empty
bucket name and whose label set no later record of the pass maps to (neither a
later entry of the same document nor a record of a later project), after the
pass each of the five series holds, at the label set `project_name` = display
name of `p`, `bucket_name`, `region`, `type` of `s`, the `RealQuantity` of the
matching field of `s` (converted to float64): incoming, incoming internal,
outgoing, outgoing internal bandwidth and stored, each in its own series.
Nothing is assumed about the five quantities, so a parse failure in one of
them leaves the other four as stated. -/
theorem record_sets_five_series (rt : Runtime) (client : Client) (st : State)
    (pre post : List CloudProject) (p : CloudProject) (usage : CloudProjectUsage)
    (before after : List Storage) (s : Storage)
    (hfetch : client.getUsage (usagePath p) = .ok usage)
    (hdoc : usage.HourlyUsage.Storage = before ++ s :: after)
    (hname : s.BucketName ≠ "")
    (hafter : ∀ t ∈ after, t.BucketName ≠ "" → labelsOf p t ≠ labelsOf p s)
    (hpost : labelsOf p s ∉ passLabels client post) :
    let m := (RecordCloudProjectMetrics rt client st (pre ++ p :: post)).metrics
    labelsOf p s = ⟨p.ProjectName, s.BucketName, s.Region, s.Type_⟩
      ∧ m.cloudProjectUsageStorageIncomingBandwidth (labelsOf p s)
        = some (Float64.ofInt (RealQuantity rt s.IncomingBandwidth.Quantity))
      ∧ m.cloudProjectUsageStorageIncomingInternalBandwidth (labelsOf p s)
        = some (Float64.ofInt (RealQuantity rt s.IncomingInternalBandwidth.Quantity))
      ∧ m.cloudProjectUsageStorageOutgoingBandwidth (labelsOf p s)
        = some (Float64.ofInt (RealQuantity rt s.OutgoingBandwidth.Quantity))
      ∧ m.cloudProjectUsageStorageOutgoingInternalBandwidth (labelsOf p s)
        = some (Float64.ofInt (RealQuantity rt s.OutgoingInternalBandwidth.Quantity))
      ∧ m.cloudProjectUsageStorageStored (labelsOf p s)
        = some (Float64.ofInt (RealQuantity rt s.Stored.Quantity)) := by
  intro m
  refine ⟨rfl, ?_⟩
  have hcalls : passCalls rt client (pre ++ p :: post)
      = (passCalls rt client pre
          ++ (before.filter (fun s => decide (s.BucketName ≠ ""))).flatMap (entryCalls rt p))
        ++ entryCalls rt p s
        ++ ((after.filter (fun s => decide (s.BucketName ≠ ""))).flatMap (entryCalls rt p)
          ++ passCalls rt client post) := by
    simp [passCalls, projectCalls, projectRecords, hfetch, namedEntries, hdoc,
      List.filter_append, List.filter_cons, hname, List.flatMap_append, List.flatMap_cons]
  have hrest : ∀ c ∈ (after.filter (fun s => decide (s.BucketName ≠ ""))).flatMap
      (entryCalls rt p) ++ passCalls rt client post, c.labels ≠ labelsOf p s := by
    intro c hc
    rcases List.mem_append.mp hc with h | h
    · simp only [List.mem_flatMap, List.mem_filter, decide_eq_true_eq] at h
      obtain ⟨t, ⟨ht, htn⟩, hct⟩ := h
      rw [entryCalls_labels rt p t c hct]
      exact hafter t ht htn
    · intro hl
      exact hpost (hl ▸ passCalls_labels rt client post c h)
  have hm : ∀ k, m.vec k (labelsOf p s)
      = (replay (replay st (passCalls rt client pre
          ++ (before.filter (fun s => decide (s.BucketName ≠ ""))).flatMap (entryCalls rt p)))
          (entryCalls rt p s)).metrics.vec k (labelsOf p s) := by
    intro k
    show (RecordCloudProjectMetrics rt client st (pre ++ p :: post)).metrics.vec k _ = _
    rw [pass_eq_replay, hcalls, replay_append st (_ ++ entryCalls rt p s) _,
      replay_keeps _ _ _ hrest k, replay_append]
  have h5 := replay_entryCalls_vec rt p s (replay st (passCalls rt client pre
    ++ (before.filter (fun s => decide (s.BucketName ≠ ""))).flatMap (entryCalls rt p)))
  exact ⟨(hm .incomingBandwidth).trans h5.1, (hm .incomingInternalBandwidth).trans h5.2.1,
    (hm .outgoingBandwidth).trans h5.2.2.1, (hm .outgoingInternalBandwidth).trans h5.2.2.2.1,
    (hm .stored).trans h5.2.2.2.2⟩

/-- C10 at a concrete input: the named entry `logs` of project `p2` (10 to
14 GB in its five fields), after a pass in which the fetch of `p1` fails. -/
theorem record_sets_five_series_witness :
    (RecordCloudProjectMetrics sampleRuntime sampleClient State.empty
        ([projectA] ++ projectB :: [])).metrics.cloudProjectUsageStorageIncomingBandwidth
        ⟨"beta", "logs", "GRA", "pcs"⟩ = some (Float64.ofNat 10000000000)
      ∧ (RecordCloudProjectMetrics sampleRuntime sampleClient State.empty
        ([projectA] ++ projectB :: [])).metrics.cloudProjectUsageStorageStored
        ⟨"beta", "logs", "GRA", "pcs"⟩ = some (Float64.ofNat 14000000000) :=
  have h := record_sets_five_series sampleRuntime sampleClient State.empty [projectA] []
    projectB usageB [sampleEntry "" 1] [] (sampleEntry "logs" 10) rfl rfl (by decide)
    (by intro t ht; cases ht) (by decide)
  ⟨h.2.1.trans (by decide), h.2.2.2.2.2.trans (by decide)⟩

/-! ## Rounding: arithmetic facts -/

theorem roundHalfEven_mul (M d : Nat) (hd : 0 < d) : roundHalfEven (M * d) d = M := by
  unfold roundHalfEven
  rw [Nat.mul_mod_left, Nat.mul_div_cancel _ hd]
  simp [hd]

theorem roundHalfEven_le (p d B : Nat) (hd : 0 < d) (h : p < B * d) :
    roundHalfEven p d ≤ B := by
  have h1 : p / d < B := (Nat.div_lt_iff_lt_mul hd).mpr h
  unfold roundHalfEven
  split
  · omega
  · split
    · omega
    · split <;> omega

theorem log2Fuel_spec (fuel : Nat) : ∀ n, n ≤ fuel → 0 < n →
    2 ^ log2Fuel fuel n ≤ n ∧ n < 2 ^ (log2Fuel fuel n + 1) := by
  induction fuel with
  | zero => intro n h hn; omega
  | succ fuel ih =>
    intro n h hn
    unfold log2Fuel
    by_cases h2 : n < 2
    · simp only [h2, if_true]
      omega
    · simp only [h2, if_false]
      obtain ⟨h3, h4⟩ := ih (n / 2) (by omega) (by omega)
      constructor
      · rw [pow_succ]
        omega
      · rw [pow_succ]
        omega

theorem two_zpow_of_nonneg (e : Int) (he : 0 ≤ e) : (2 : ℚ) ^ e = ((2 ^ e.toNat : Nat) : ℚ) := by
  conv_lhs => rw [← Int.toNat_of_nonneg he]
  rw [zpow_natCast]
  push_cast
  rfl

theorem two_zpow_of_neg (e : Int) (he : e < 0) :
    (2 : ℚ) ^ e = 1 / ((2 ^ (-e).toNat : Nat) : ℚ) := by
  have h : e = -((-e).toNat : Int) := by
    rw [Int.toNat_of_nonneg (by omega)]
    omega
  conv_lhs => rw [h]
  rw [zpow_neg, zpow_natCast]
  push_cast
  simp

theorem ratioGe_iff (p q : Nat) (hq : 0 < q) (g : Int) :
    ratioGe p q g = true ↔ (2 : ℚ) ^ g ≤ (p : ℚ) / q := by
  have hq' : (0 : ℚ) < q := by exact_mod_cast hq
  unfold ratioGe
  by_cases hg : 0 ≤ g
  · simp only [hg, if_true, decide_eq_true_eq]
    rw [two_zpow_of_nonneg g hg, le_div_iff₀ hq']
    constructor
    · intro h
      have : ((q * 2 ^ g.toNat : Nat) : ℚ) ≤ (p : ℚ) := by exact_mod_cast h
      push_cast at this ⊢
      linarith
    · intro h
      have : ((2 ^ g.toNat * q : Nat) : ℚ) ≤ (p : ℚ) := by
        push_cast
        push_cast at h
        exact h
      have h2 : 2 ^ g.toNat * q ≤ p := by exact_mod_cast this
      linarith
  · simp only [hg, if_false, decide_eq_true_eq]
    have hg' : g < 0 := by omega
    have hpos : (0 : ℚ) < ((2 ^ (-g).toNat : Nat) : ℚ) := by positivity
    rw [two_zpow_of_neg g hg', div_le_div_iff₀ hpos hq']
    constructor
    · intro h
      have : ((q : Nat) : ℚ) ≤ ((p * 2 ^ (-g).toNat : Nat) : ℚ) := by exact_mod_cast h
      push_cast at this ⊢
      linarith
    · intro h
      have : ((1 * q : Nat) : ℚ) ≤ ((p * 2 ^ (-g).toNat : Nat) : ℚ) := by
        push_cast
        push_cast at h
        exact h
      have h2 : 1 * q ≤ p * 2 ^ (-g).toNat := by exact_mod_cast this
      linarith

theorem log2Fuel_bounds (n : Nat) (hn : 0 < n) :
    (2 : ℚ) ^ (log2Fuel n n : Int) ≤ n ∧ (n : ℚ) < 2 ^ ((log2Fuel n n : Int) + 1) := by
  obtain ⟨h1, h2⟩ := log2Fuel_spec n n le_rfl hn
  constructor
  · rw [zpow_natCast]
    exact_mod_cast h1
  · have : ((log2Fuel n n : Int) + 1) = ((log2Fuel n n + 1 : Nat) : Int) := by push_cast; rfl
    rw [this, zpow_natCast]
    exact_mod_cast h2

theorem floorLog2_le (p q : Nat) (hp : 0 < p) (hq : 0 < q) :
    (2 : ℚ) ^ floorLog2 p q ≤ (p : ℚ) / q := by
  have hq' : (0 : ℚ) < q := by exact_mod_cast hq
  unfold floorLog2
  simp only
  split
  · rename_i h
    exact (ratioGe_iff p q hq _).mp h
  · obtain ⟨hp1, _⟩ := log2Fuel_bounds p hp
    obtain ⟨_, hq2⟩ := log2Fuel_bounds q hq
    have e : (log2Fuel p p : Int) - (log2Fuel q q : Int) - 1
        = (log2Fuel p p : Int) - ((log2Fuel q q : Int) + 1) := by ring
    rw [e, zpow_sub₀ (by norm_num)]
    have h2pos : (0 : ℚ) < 2 ^ ((log2Fuel q q : Int) + 1) := zpow_pos (by norm_num) _
    rw [div_le_div_iff₀ h2pos hq']
    have h0 : (0 : ℚ) ≤ 2 ^ (log2Fuel p p : Int) := (zpow_pos (by norm_num) _).le
    nlinarith

theorem floorLog2_lt (p q : Nat) (hp : 0 < p) (hq : 0 < q) :
    (p : ℚ) / q < (2 : ℚ) ^ (floorLog2 p q + 1) := by
  have hq' : (0 : ℚ) < q := by exact_mod_cast hq
  have hp' : (0 : ℚ) < p := by exact_mod_cast hp
  unfold floorLog2
  simp only
  split
  · obtain ⟨_, hp2⟩ := log2Fuel_bounds p hp
    obtain ⟨hq1, _⟩ := log2Fuel_bounds q hq
    have e : (log2Fuel p p : Int) - (log2Fuel q q : Int) + 1
        = ((log2Fuel p p : Int) + 1) - (log2Fuel q q : Int) := by ring
    rw [e, zpow_sub₀ (by norm_num)]
    have h2pos : (0 : ℚ) < 2 ^ (log2Fuel q q : Int) := zpow_pos (by norm_num) _
    rw [div_lt_div_iff₀ hq' h2pos]
    nlinarith
  · rename_i h
    have := (ratioGe_iff p q hq ((log2Fuel p p : Int) - (log2Fuel q q : Int))).not.mp h
    simpa using this

theorem scaledRound_exact (p q : Nat) (hq : 0 < q) (M : Nat) (e : Int)
    (h : (p : ℚ) / q = M * (2 : ℚ) ^ e) : scaledRound p q e = M := by
  have hq' : (q : ℚ) ≠ 0 := by exact_mod_cast hq.ne'
  unfold scaledRound
  by_cases he : 0 ≤ e
  · simp only [he, if_true]
    rw [two_zpow_of_nonneg e he, div_eq_iff hq'] at h
    have h2 : p = M * (q * 2 ^ e.toNat) := by
      have : (p : ℚ) = ((M * (q * 2 ^ e.toNat) : Nat) : ℚ) := by
        rw [h]
        push_cast
        ring
      exact_mod_cast this
    rw [h2]
    exact roundHalfEven_mul _ _ (by positivity)
  · simp only [he, if_false]
    have he' : e < 0 := by omega
    have hpos : ((2 ^ (-e).toNat : Nat) : ℚ) ≠ 0 := by positivity
    rw [two_zpow_of_neg e he', div_eq_iff hq'] at h
    have h2 : p * 2 ^ (-e).toNat = M * q := by
      have : ((p * 2 ^ (-e).toNat : Nat) : ℚ) = ((M * q : Nat) : ℚ) := by
        push_cast
        rw [h]
        push_cast
        field_simp
      exact_mod_cast this
    rw [h2]
    exact roundHalfEven_mul _ _ hq

theorem scaledRound_le (p q : Nat) (hq : 0 < q) (B : Nat) (e : Int)
    (h : (p : ℚ) / q < B * (2 : ℚ) ^ e) : scaledRound p q e ≤ B := by
  have hq' : (0 : ℚ) < q := by exact_mod_cast hq
  unfold scaledRound
  by_cases he : 0 ≤ e
  · simp only [he, if_true]
    apply roundHalfEven_le _ _ _ (by positivity)
    rw [two_zpow_of_nonneg e he, div_lt_iff₀ hq'] at h
    have : (p : ℚ) < ((B * (q * 2 ^ e.toNat) : Nat) : ℚ) := by
      push_cast
      push_cast at h
      linarith
    exact_mod_cast this
  · simp only [he, if_false]
    have he' : e < 0 := by omega
    have hpos : (0 : ℚ) < ((2 ^ (-e).toNat : Nat) : ℚ) := by positivity
    apply roundHalfEven_le _ _ _ hq
    rw [two_zpow_of_neg e he', div_lt_iff₀ hq', mul_one_div, div_mul_eq_mul_div,
      lt_div_iff₀ hpos] at h
    have : ((p * 2 ^ (-e).toNat : Nat) : ℚ) < ((B * q : Nat) : ℚ) := by
      push_cast
      push_cast at h
      linarith
    exact_mod_cast this

theorem round_canonical (neg : Bool) (p q : Nat) (hq : 0 < q) :
    (Float64.round neg p q).Canonical := by
  unfold Float64.round
  by_cases hp : p = 0
  · simp [hp, Float64.Canonical]
  · simp only [hp, if_false]
    have hp0 : 0 < p := Nat.pos_of_ne_zero hp
    have hle : scaledRound p q (max (floorLog2 p q - 52) (-1074)) ≤ 2 ^ 53 := by
      apply scaledRound_le p q hq
      have h1 := floorLog2_lt p q hp0 hq
      have h2 : (2 : ℚ) ^ (floorLog2 p q + 1)
          ≤ ((2 ^ 53 : Nat) : ℚ) * 2 ^ (max (floorLog2 p q - 52) (-1074)) := by
        have : ((2 ^ 53 : Nat) : ℚ) = (2 : ℚ) ^ (53 : Int) := by norm_num
        rw [this, ← zpow_add₀ (by norm_num)]
        apply zpow_le_zpow_right₀ (by norm_num)
        have := le_max_left (floorLog2 p q - 52) (-1074)
        omega
      exact lt_of_lt_of_le h1 h2
    have hmax := le_max_right (floorLog2 p q - 52) (-1074)
    by_cases h53 : scaledRound p q (max (floorLog2 p q - 52) (-1074)) = 2 ^ 53
    · simp only [h53, if_true]
      split
      · trivial
      · simp only [Float64.Canonical]
        omega
    · simp only [h53, if_false]
      split
      · trivial
      · simp only [Float64.Canonical]
        omega

theorem round_exact (neg : Bool) (p q : Nat) (hq : 0 < q) (k : Nat) (j : Int)
    (hk : k < 2 ^ 53) (hj1 : -1074 ≤ j) (hj2 : j ≤ 971)
    (hx : (p : ℚ) / q = k * (2 : ℚ) ^ j) :
    ∃ m e, Float64.round neg p q = .fin neg m e ∧ (m : ℚ) * (2 : ℚ) ^ e = k * (2 : ℚ) ^ j := by
  have hq' : (0 : ℚ) < q := by exact_mod_cast hq
  unfold Float64.round
  by_cases hp : p = 0
  · refine ⟨0, -1074, by simp [hp], ?_⟩
    rw [hp] at hx
    simp at hx ⊢
    rcases hx with h | h
    · left; exact h.symm ▸ rfl
    · exact absurd h (by positivity)
  · simp only [hp, if_false]
    have hp0 : 0 < p := Nat.pos_of_ne_zero hp
    set e := max (floorLog2 p q - 52) (-1074) with he
    have hej : e ≤ j := by
      have h1 := floorLog2_le p q hp0 hq
      rw [hx] at h1
      have h2 : (k : ℚ) * (2 : ℚ) ^ j < (2 : ℚ) ^ (53 + j) := by
        rw [zpow_add₀ (by norm_num)]
        have : (k : ℚ) < (2 : ℚ) ^ (53 : Int) := by
          have h253 : (2 : ℚ) ^ (53 : Int) = ((2 ^ 53 : Nat) : ℚ) := by norm_num
          rw [h253]
          exact_mod_cast hk
        exact mul_lt_mul_of_pos_right this (zpow_pos (by norm_num) _)
      have h3 := (zpow_lt_zpow_iff_right₀ (by norm_num : (1 : ℚ) < 2)).mp (lt_of_le_of_lt h1 h2)
      rw [he]
      exact max_le (by omega) hj1
    have hM : scaledRound p q e = k * 2 ^ (j - e).toNat := by
      apply scaledRound_exact p q hq
      rw [hx]
      push_cast
      rw [← zpow_natCast, Int.toNat_of_nonneg (by omega), mul_assoc, ← zpow_add₀ (by norm_num)]
      congr 2
      ring
    have hval : ((k * 2 ^ (j - e).toNat : Nat) : ℚ) * (2 : ℚ) ^ e = k * (2 : ℚ) ^ j := by
      push_cast
      rw [← zpow_natCast, Int.toNat_of_nonneg (by omega), mul_assoc, ← zpow_add₀ (by norm_num)]
      congr 2
      ring
    rw [hM]
    by_cases h53 : k * 2 ^ (j - e).toNat = 2 ^ 53
    · simp only [h53, if_true]
      have hlt : e < j := by
        rcases lt_or_eq_of_le hej with h | h
        · exact h
        · exfalso
          rw [h] at h53
          simp at h53
          omega
      have : ¬ (971 < e + 1) := by omega
      refine ⟨2 ^ 52, e + 1, by simp [this], ?_⟩
      rw [← hval, h53, zpow_add₀ (by norm_num)]
      norm_num
      ring
    · simp only [h53, if_false]
      have : ¬ (971 < e) := by omega
      exact ⟨_, e, by simp [this], hval⟩

theorem scaledRound_ge (p q : Nat) (hq : 0 < q) (B : Nat) (e : Int)
    (h : (B : ℚ) * (2 : ℚ) ^ e ≤ (p : ℚ) / q) : B ≤ scaledRound p q e := by
  have hq' : (0 : ℚ) < q := by exact_mod_cast hq
  have key : ∀ a d : Nat, 0 < d → B * d ≤ a → B ≤ roundHalfEven a d := by
    intro a d hd hle
    have h1 : B ≤ a / d := (Nat.le_div_iff_mul_le hd).mpr hle
    unfold roundHalfEven
    split
    · exact h1
    · split
      · omega
      · split <;> omega
  unfold scaledRound
  by_cases he : 0 ≤ e
  · simp only [he, if_true]
    apply key _ _ (by positivity)
    rw [two_zpow_of_nonneg e he, le_div_iff₀ hq'] at h
    have : ((B * (q * 2 ^ e.toNat) : Nat) : ℚ) ≤ (p : ℚ) := by
      push_cast
      push_cast at h
      linarith
    exact_mod_cast this
  · simp only [he, if_false]
    have he' : e < 0 := by omega
    have hpos : (0 : ℚ) < ((2 ^ (-e).toNat : Nat) : ℚ) := by positivity
    apply key _ _ hq
    rw [two_zpow_of_neg e he', le_div_iff₀ hq', mul_one_div, div_mul_eq_mul_div,
      div_le_iff₀ hpos] at h
    have : ((B * q : Nat) : ℚ) ≤ ((p * 2 ^ (-e).toNat : Nat) : ℚ) := by
      push_cast
      push_cast at h
      linarith
    exact_mod_cast this

theorem round_normal (neg : Bool) (p q : Nat) (hq : 0 < q) :
    (Float64.round neg p q).Normal := by
  have hc := round_canonical neg p q hq
  unfold Float64.round at hc ⊢
  by_cases hp : p = 0
  · simp [hp, Float64.Normal]
  · simp only [hp, if_false] at hc ⊢
    have hp0 : 0 < p := Nat.pos_of_ne_zero hp
    by_cases h53 : scaledRound p q (max (floorLog2 p q - 52) (-1074)) = 2 ^ 53
    · simp only [h53, if_true] at hc ⊢
      split
      · trivial
      · rename_i hover
        simp only [hover, if_false, Float64.Canonical] at hc
        simp only [Float64.Normal]
        left
        omega
    · simp only [h53, if_false] at hc ⊢
      split
      · trivial
      · rename_i hover
        simp only [hover, if_false, Float64.Canonical] at hc
        simp only [Float64.Normal]
        by_cases hcl : floorLog2 p q - 52 ≤ -1074
        · have hm : max (floorLog2 p q - 52) (-1074) = -1074 := max_eq_right hcl
          rw [hm] at hc ⊢
          by_cases hlt : scaledRound p q (-1074) < 2 ^ 52
          · right
            exact ⟨hlt, rfl⟩
          · left
            omega
        · have hm : max (floorLog2 p q - 52) (-1074) = floorLog2 p q - 52 :=
            max_eq_left (by omega)
          rw [hm] at hc ⊢
          left
          refine ⟨?_, hc.1, hc.2.1, hc.2.2⟩
          apply scaledRound_ge p q hq
          have h1 := floorLog2_le p q hp0 hq
          have : ((2 ^ 52 : Nat) : ℚ) * (2 : ℚ) ^ (floorLog2 p q - 52)
              = (2 : ℚ) ^ floorLog2 p q := by
            have h252 : ((2 ^ 52 : Nat) : ℚ) = (2 : ℚ) ^ (52 : Int) := by norm_num
            rw [h252, ← zpow_add₀ (by norm_num)]
            congr 1
            ring
          rw [this]
          exact h1

theorem value_scale (m m' : Nat) (e e' : Int) (hle : e ≤ e')
    (hv : (m : ℚ) * (2 : ℚ) ^ e = (m' : ℚ) * (2 : ℚ) ^ e') : m = m' * 2 ^ (e' - e).toNat := by
  have hpos : (0 : ℚ) < (2 : ℚ) ^ e := zpow_pos (by norm_num) _
  have h2 : (2 : ℚ) ^ e' = (2 : ℚ) ^ e * ((2 ^ (e' - e).toNat : Nat) : ℚ) := by
    push_cast
    rw [← zpow_natCast, Int.toNat_of_nonneg (by omega), ← zpow_add₀ (by norm_num)]
    congr 1
    ring
  rw [h2] at hv
  have h3 : (m : ℚ) = ((m' * 2 ^ (e' - e).toNat : Nat) : ℚ) := by
    have : (m : ℚ) * (2 : ℚ) ^ e = ((m' * 2 ^ (e' - e).toNat : Nat) : ℚ) * (2 : ℚ) ^ e := by
      rw [hv]
      push_cast
      ring
    exact mul_right_cancel₀ hpos.ne' this
  exact_mod_cast h3

theorem normal_unique (a b : Bool) (m m' : Nat) (e e' : Int)
    (h1 : (Float64.fin a m e).Normal) (h2 : (Float64.fin b m' e').Normal)
    (hv : (m : ℚ) * (2 : ℚ) ^ e = (m' : ℚ) * (2 : ℚ) ^ e') : m = m' ∧ e = e' := by
  simp only [Float64.Normal] at h1 h2
  rcases lt_trichotomy e e' with h | h | h
  · exfalso
    have hs := value_scale m m' e e' h.le hv
    have hp : 2 ≤ 2 ^ (e' - e).toNat := by
      have : 1 ≤ (e' - e).toNat := by omega
      calc 2 = 2 ^ 1 := rfl
        _ ≤ 2 ^ (e' - e).toNat := Nat.pow_le_pow_right (by norm_num) this
    have hm' : 2 ^ 52 ≤ m' := by
      rcases h2 with h2 | h2
      · exact h2.1
      · omega
    have hm : m < 2 ^ 53 := by
      rcases h1 with h1 | h1
      · exact h1.2.1
      · omega
    have : 2 ^ 52 * 2 ≤ m' * 2 ^ (e' - e).toNat := Nat.mul_le_mul hm' hp
    omega
  · subst h
    have hpos : (0 : ℚ) < (2 : ℚ) ^ e := zpow_pos (by norm_num) _
    have := mul_right_cancel₀ hpos.ne' hv
    exact ⟨by exact_mod_cast this, rfl⟩
  · exfalso
    have hs := value_scale m' m e' e h.le hv.symm
    have hp : 2 ≤ 2 ^ (e - e').toNat := by
      have : 1 ≤ (e - e').toNat := by omega
      calc 2 = 2 ^ 1 := rfl
        _ ≤ 2 ^ (e - e').toNat := Nat.pow_le_pow_right (by norm_num) this
    have hm' : 2 ^ 52 ≤ m := by
      rcases h1 with h1 | h1
      · exact h1.1
      · omega
    have hm : m' < 2 ^ 53 := by
      rcases h2 with h2 | h2
      · exact h2.2.1
      · omega
    have : 2 ^ 52 * 2 ≤ m * 2 ^ (e - e').toNat := Nat.mul_le_mul hm' hp
    omega

theorem round_eq_of_value (neg : Bool) (p q : Nat) (hq : 0 < q) (m : Nat) (e : Int)
    (hn : (Float64.fin neg m e).Normal) (hx : (p : ℚ) / q = m * (2 : ℚ) ^ e) :
    Float64.round neg p q = .fin neg m e := by
  have hm : m < 2 ^ 53 ∧ -1074 ≤ e ∧ e ≤ 971 := by
    simp only [Float64.Normal] at hn
    rcases hn with h | h
    · exact ⟨h.2.1, h.2.2.1, h.2.2.2⟩
    · omega
  obtain ⟨m', e', hr, hv⟩ := round_exact neg p q hq m e hm.1 hm.2.1 hm.2.2 hx
  have hn' := round_normal neg p q hq
  rw [hr] at hn'
  obtain ⟨h1, h2⟩ := normal_unique neg neg m' m e' e hn' hn hv
  rw [hr, h1, h2]

theorem roundBin_ratio (neg : Bool) (M : Nat) (E : Int) :
    ∃ p q : Nat, 0 < q ∧ Float64.roundBin neg M E = Float64.round neg p q
      ∧ (p : ℚ) / q = M * (2 : ℚ) ^ E := by
  unfold Float64.roundBin
  by_cases hE : 0 ≤ E
  · refine ⟨M * 2 ^ E.toNat, 1, Nat.one_pos, by simp [hE], ?_⟩
    rw [two_zpow_of_nonneg E hE]
    push_cast
    simp
  · refine ⟨M, 2 ^ (-E).toNat, by positivity, by simp [hE], ?_⟩
    rw [two_zpow_of_neg E (by omega)]
    push_cast
    ring

theorem ofNat_one : Float64.ofNat 1 = .fin false (2 ^ 52) (-52) := by decide

theorem mul_one_of_normal (a : Bool) (m : Nat) (e : Int) (hn : (Float64.fin a m e).Normal) :
    (Float64.fin a m e).mul (Float64.ofNat (1000 ^ 0)) = .fin a m e := by
  rw [pow_zero, ofNat_one]
  show Float64.roundBin (a != false) (m * 2 ^ 52) (e + -52) = _
  obtain ⟨p, q, hq, hr, hx⟩ := roundBin_ratio (a != false) (m * 2 ^ 52) (e + -52)
  have ha : (a != false) = a := by cases a <;> rfl
  rw [hr, ha]
  apply round_eq_of_value a p q hq m e hn
  rw [hx, zpow_add₀ (by norm_num)]
  push_cast
  have : (2 : ℚ) ^ (-52 : Int) = 1 / 2 ^ 52 := by
    rw [zpow_neg]
    norm_num
  rw [this]
  ring

theorem truncBin_exact (m : Nat) (e : Int) (N : Nat) (h : (m : ℚ) * (2 : ℚ) ^ e = N) :
    truncBin m e = N := by
  unfold truncBin
  by_cases he : 0 ≤ e
  · simp only [he, if_true]
    rw [two_zpow_of_nonneg e he] at h
    exact_mod_cast h
  · simp only [he, if_false]
    have hpos : (0 : ℚ) < ((2 ^ (-e).toNat : Nat) : ℚ) := by positivity
    rw [two_zpow_of_neg e (by omega), mul_one_div, div_eq_iff hpos.ne'] at h
    have h2 : m = N * 2 ^ (-e).toNat := by exact_mod_cast h
    rw [h2]
    exact Nat.mul_div_cancel _ (by positivity)

theorem scaled6_exact (m : Nat) (e : Int) (N : Nat)
    (h : (m : ℚ) * (2 : ℚ) ^ e * 10 ^ 6 = N) : scaled6 m e = N := by
  unfold scaled6
  by_cases he : 0 ≤ e
  · simp only [he, if_true]
    rw [two_zpow_of_nonneg e he] at h
    exact_mod_cast h
  · simp only [he, if_false]
    have hpos : (0 : ℚ) < ((2 ^ (-e).toNat : Nat) : ℚ) := by positivity
    rw [two_zpow_of_neg e (by omega), mul_one_div, div_mul_eq_mul_div, div_eq_iff hpos.ne'] at h
    have h2 : m * 10 ^ 6 = N * 2 ^ (-e).toNat := by exact_mod_cast h
    rw [h2]
    exact roundHalfEven_mul _ _ (by positivity)

/-! ## Decimal strings -/

theorem digitChar_toNat (d : Nat) (hd : d < 10) : (Nat.digitChar d).toNat = 48 + d := by
  interval_cases d <;> rfl

theorem isDigit_digitChar (d : Nat) (hd : d < 10) : isDigit (Nat.digitChar d) = true := by
  interval_cases d <;> rfl

theorem digitsValue_foldl (ds : List Char) (a : Nat) :
    ds.foldl (fun a c => 10 * a + (c.toNat - 48)) a = a * 10 ^ ds.length + digitsValue ds := by
  induction ds generalizing a with
  | nil => simp [digitsValue]
  | cons c cs ih =>
    unfold digitsValue
    rw [List.foldl_cons, List.foldl_cons, ih, ih (10 * 0 + (c.toNat - 48))]
    simp only [List.length_cons, pow_succ]
    ring

theorem digitsValue_append (a b : List Char) :
    digitsValue (a ++ b) = digitsValue a * 10 ^ b.length + digitsValue b := by
  unfold digitsValue
  rw [List.foldl_append, digitsValue_foldl]
  rfl

theorem digitsValue_singleton (d : Nat) (hd : d < 10) : digitsValue [Nat.digitChar d] = d := by
  simp [digitsValue, digitChar_toNat d hd]

theorem decimalDigits_spec (fuel : Nat) : ∀ n, n < fuel →
    (∀ c ∈ decimalDigits fuel n, isDigit c = true) ∧ digitsValue (decimalDigits fuel n) = n
      ∧ decimalDigits fuel n ≠ [] := by
  induction fuel with
  | zero => intro n h; omega
  | succ fuel ih =>
    intro n h
    unfold decimalDigits
    by_cases h10 : n < 10
    · simp only [h10, if_true]
      refine ⟨?_, digitsValue_singleton n h10, by simp⟩
      intro c hc
      simp only [List.mem_singleton] at hc
      rw [hc]
      exact isDigit_digitChar n h10
    · simp only [h10, if_false]
      obtain ⟨h1, h2, _⟩ := ih (n / 10) (by omega)
      have hmod : n % 10 < 10 := Nat.mod_lt _ (by norm_num)
      refine ⟨?_, ?_, by simp⟩
      · intro c hc
        rcases List.mem_append.mp hc with hc | hc
        · exact h1 c hc
        · simp only [List.mem_singleton] at hc
          rw [hc]
          exact isDigit_digitChar _ hmod
      · rw [digitsValue_append, h2, digitsValue_singleton _ hmod]
        simp only [List.length_singleton, pow_one]
        omega

theorem formatNat_spec (n : Nat) :
    (∀ c ∈ formatNat n, isDigit c = true) ∧ digitsValue (formatNat n) = n ∧ formatNat n ≠ [] :=
  decimalDigits_spec (n + 1) n (Nat.lt_succ_self n)

theorem fixedDigits_spec (k : Nat) : ∀ n,
    (∀ c ∈ fixedDigits k n, isDigit c = true) ∧ digitsValue (fixedDigits k n) = n % 10 ^ k
      ∧ (fixedDigits k n).length = k := by
  induction k with
  | zero => intro n; simp [fixedDigits, digitsValue, Nat.mod_one]
  | succ k ih =>
    intro n
    unfold fixedDigits
    obtain ⟨h1, h2, h3⟩ := ih (n / 10)
    have hmod : n % 10 < 10 := Nat.mod_lt _ (by norm_num)
    refine ⟨?_, ?_, by simp [h3]⟩
    · intro c hc
      rcases List.mem_append.mp hc with hc | hc
      · exact h1 c hc
      · simp only [List.mem_singleton] at hc
        rw [hc]
        exact isDigit_digitChar _ hmod
    · rw [digitsValue_append, h2, digitsValue_singleton _ hmod]
      simp only [List.length_singleton, pow_one]
      rw [pow_succ]
      have h4 : n % (10 ^ k * 10) = n % 10 + 10 * (n / 10 % 10 ^ k) := by
        rw [Nat.mul_comm (10 ^ k) 10, Nat.mod_mul]
      omega

theorem takeWhile_digits (ds rest : List Char) (h : ∀ c ∈ ds, isDigit c = true) :
    (ds ++ '.' :: rest).takeWhile isDigit = ds ∧ (ds ++ '.' :: rest).dropWhile isDigit = '.' :: rest := by
  induction ds with
  | nil =>
    have : isDigit '.' = false := by decide
    simp [List.takeWhile, List.dropWhile, this]
  | cons d ds ih =>
    have hd := h d (List.mem_cons_self _ _)
    obtain ⟨h1, h2⟩ := ih (fun c hc => h c (List.mem_cons_of_mem _ hc))
    simp [List.takeWhile, List.dropWhile, hd, h1, h2]

theorem parseDecimal_digits (ip fp : List Char) (hip : ∀ c ∈ ip, isDigit c = true)
    (hfp : ∀ c ∈ fp, isDigit c = true) (hne : ip ≠ []) :
    parseDecimal (ip ++ '.' :: fp) = some (digitsValue (ip ++ fp), fp.length) := by
  obtain ⟨h1, h2⟩ := takeWhile_digits ip fp hip
  unfold parseDecimal
  simp only [h1, h2]
  have hall : fp.all isDigit = true := List.all_eq_true.mpr hfp
  simp [hall, hne]

theorem asciiLower_digit (c : Char) (h : isDigit c = true) : asciiLower c = c := by
  unfold isDigit at h
  simp only [Bool.and_eq_true, decide_eq_true_eq] at h
  unfold asciiLower
  have : ¬ (65 ≤ c.toNat ∧ c.toNat ≤ 90) := by omega
  simp [this]

theorem digit_ne (c x : Char) (h : isDigit c = true) (hx : isDigit x = false) : c ≠ x := by
  intro hc
  rw [hc, hx] at h
  exact Bool.noConfusion h

/-- Reading back a rendered decimal: the digits as an integer over the power
of ten of the fraction length, correctly rounded. -/
theorem parseFloat_decimal (sgn : Bool) (ip fp : List Char)
    (hip : ∀ c ∈ ip, isDigit c = true) (hfp : ∀ c ∈ fp, isDigit c = true) (hne : ip ≠ []) :
    ParseFloat ((if sgn then ['-'] else []) ++ ip ++ '.' :: fp)
      = match Float64.round sgn (digitsValue (ip ++ fp)) (10 ^ fp.length) with
        | .fin a m e => .ok (.fin a m e)
        | _ => .error "strconv.ParseFloat: value out of range" := by
  have hdec := parseDecimal_digits ip fp hip hfp hne
  cases ip with
  | nil => exact absurd rfl hne
  | cons d ip =>
    have hd := hip d (List.mem_cons_self _ _)
    have h1 : d ≠ '-' := digit_ne d '-' hd (by decide)
    have h2 : d ≠ '+' := digit_ne d '+' hd (by decide)
    have h3 : asciiLower d ≠ 'i' := by
      rw [asciiLower_digit d hd]
      exact digit_ne d 'i' hd (by decide)
    have h4 : asciiLower d ≠ 'n' := by
      rw [asciiLower_digit d hd]
      exact digit_ne d 'n' hd (by decide)
    have h5 : asciiLower '-' ≠ 'n' := by decide
    cases sgn with
    | false =>
      unfold ParseFloat
      simp only [Bool.false_eq_true, if_false, List.nil_append, List.cons_append, List.head?_cons,
        Option.some.injEq, h1, h2, or_self, List.map_cons, List.cons.injEq, h3, h4, false_and,
        decide_False]
      rw [← List.cons_append, hdec]
      rfl
    | true =>
      unfold ParseFloat
      simp only [if_true, List.cons_append, List.nil_append, List.head?_cons, true_or,
        List.drop_succ_cons, List.drop_zero, List.map_cons, List.cons.injEq, h3, h5, false_and,
        or_self, if_false, decide_True]
      rw [← List.cons_append, hdec]
      rfl

theorem parseFloat_formatF (neg : Bool) (m : Nat) (e : Int) :
    ParseFloat (formatF (.fin neg m e))
      = match sixDecimals (.fin neg m e) with
        | .fin a m' e' => .ok (.fin a m' e')
        | _ => .error "strconv.ParseFloat: value out of range" := by
  obtain ⟨h1, h2, h3⟩ := formatNat_spec (scaled6 m e / 10 ^ 6)
  obtain ⟨g1, g2, g3⟩ := fixedDigits_spec 6 (scaled6 m e % 10 ^ 6)
  have h := parseFloat_decimal neg _ _ h1 g1 h3
  rw [digitsValue_append, h2, g2, g3, Nat.mod_mod, Nat.div_add_mod'] at h
  unfold formatF sixDecimals
  rw [← h]
  simp

/-! ## `parseSize` on the output of `Sprintf` -/

theorem lastIndexAny_none (u : List Char) (p : Char → Bool) (hu : ∀ c ∈ u, p c = false) :
    lastIndexAny u p = none := by
  induction u with
  | nil => rfl
  | cons c cs ih =>
    unfold lastIndexAny
    rw [ih (fun x hx => hu x (List.mem_cons_of_mem _ hx))]
    simp [hu c (List.mem_cons_self _ _)]

theorem lastIndexAny_append (a u : List Char) (c : Char) (p : Char → Bool)
    (hc : p c = true) (hu : ∀ x ∈ u, p x = false) :
    lastIndexAny (a ++ c :: u) p = some a.length := by
  induction a with
  | nil =>
    show lastIndexAny (c :: u) p = some 0
    unfold lastIndexAny
    rw [lastIndexAny_none u p hu]
    simp [hc]
  | cons x a ih =>
    show lastIndexAny (x :: (a ++ c :: u)) p = some (a.length + 1)
    unfold lastIndexAny
    rw [ih]

theorem parseSize_sprintf (rt : Runtime) (value : Float64) (u : List Char)
    (uMap : Nat → Option Nat) (hu : ∀ c ∈ u, isSizeChar c = false) :
    parseSize rt (Sprintf_f_s value u) uMap
      = match ParseFloat (formatF value) with
        | .error err => (-1, some err)
        | .ok size =>
          if size.ltZero then (-1, some "invalid size") else parseSuffix rt size u uMap := by
  unfold parseSize Sprintf_f_s
  have hsp : isSizeChar ' ' = true := by decide
  have hget : (formatF value ++ ' ' :: u)[(formatF value).length]? = some ' ' := by
    rw [List.getElem?_append_right (le_refl _)]
    simp
  rw [List.append_assoc, List.singleton_append,
    lastIndexAny_append (formatF value) u ' ' isSizeChar hsp hu]
  have hdrop : List.drop ((formatF value).length + 1) (formatF value ++ ' ' :: u) = u := by
    simp
  simp only [hget, ne_eq, not_true_eq_false, if_false, List.take_left', hdrop]

theorem parseSuffix_cases (rt : Runtime) (size : Float64) (sfx : List Char)
    (uMap : Nat → Option Nat) :
    (parseSuffix rt size sfx uMap).2 = none ∨ (parseSuffix rt size sfx uMap).1 = -1 := by
  unfold parseSuffix
  simp only [badSuffix]
  split_ifs <;> (try split) <;> first | exact Or.inl rfl | exact Or.inr rfl

theorem parseSize_cases (rt : Runtime) (sizeStr : List Char) (uMap : Nat → Option Nat) :
    (parseSize rt sizeStr uMap).2 = none ∨ (parseSize rt sizeStr uMap).1 = -1 := by
  unfold parseSize
  split
  · exact Or.inr rfl
  · simp only
    split
    · exact Or.inr rfl
    · split_ifs
      · exact Or.inr rfl
      · exact parseSuffix_cases rt _ _ uMap

theorem trimSuffix_sizeUnit (k : Nat) :
    TrimSuffix (sizeUnit k).toList ['h'] = (sizeUnit k).toList := by
  unfold sizeUnit
  split <;> decide

theorem sizeUnit_chars (k : Nat) : ∀ c ∈ (sizeUnit k).toList, isSizeChar c = false := by
  unfold sizeUnit
  split <;> decide

theorem parseSuffix_sizeUnit (rt : Runtime) (size : Float64) (k : Nat) (hk : k < 6) :
    parseSuffix rt size (sizeUnit k).toList decimalMap
      = ((if k = 0 then size else size.mul (Float64.ofNat (1000 ^ k))).toInt64 rt, none) := by
  interval_cases k <;> rfl

/-! ## `RealQuantity` on the size units -/

theorem round_finite_of_lt (neg : Bool) (p q : Nat) (hq : 0 < q)
    (h : (p : ℚ) / q < (2 : ℚ) ^ (1023 : Int)) :
    ∃ m e, Float64.round neg p q = .fin neg m e := by
  unfold Float64.round
  by_cases hp : p = 0
  · exact ⟨0, -1074, by simp [hp]⟩
  · simp only [hp, if_false]
    have hp0 : 0 < p := Nat.pos_of_ne_zero hp
    have h1 := floorLog2_le p q hp0 hq
    have h3 := (zpow_lt_zpow_iff_right₀ (by norm_num : (1 : ℚ) < 2)).mp (lt_of_le_of_lt h1 h)
    have he : max (floorLog2 p q - 52) (-1074) ≤ 970 := max_le (by omega) (by norm_num)
    split_ifs with h53 hover hover
    · omega
    · exact ⟨_, _, rfl⟩
    · omega
    · exact ⟨_, _, rfl⟩

theorem roundHalfEven_le_succ (p d : Nat) : roundHalfEven p d ≤ p / d + 1 := by
  unfold roundHalfEven
  split_ifs <;> omega

theorem scaled6_zero (e : Int) : scaled6 0 e = 0 := by
  unfold scaled6 roundHalfEven
  split_ifs <;> simp_all

theorem sixDecimals_finite (neg : Bool) (m : Nat) (e : Int)
    (hc : (Float64.fin neg m e).Canonical) :
    ∃ m' e', sixDecimals (.fin neg m e) = .fin neg m' e' := by
  simp only [Float64.Canonical] at hc
  unfold sixDecimals
  by_cases he : 0 ≤ e
  · have hx : ((scaled6 m e : Nat) : ℚ) / ((10 ^ 6 : Nat) : ℚ) = m * (2 : ℚ) ^ e := by
      unfold scaled6
      simp only [he, if_true]
      rw [two_zpow_of_nonneg e he]
      push_cast
      field_simp
    obtain ⟨m', e', hr, _⟩ := round_exact neg (scaled6 m e) (10 ^ 6) (by norm_num) m e
      hc.1 hc.2.1 hc.2.2 hx
    exact ⟨m', e', hr⟩
  · apply round_finite_of_lt neg _ _ (by norm_num)
    have hN : scaled6 m e ≤ m * 10 ^ 6 + 1 := by
      unfold scaled6
      simp only [he, if_false]
      have := roundHalfEven_le_succ (m * 10 ^ 6) (2 ^ (-e).toNat)
      have := Nat.div_le_self (m * 10 ^ 6) (2 ^ (-e).toNat)
      omega
    have hN' : ((scaled6 m e : Nat) : ℚ) ≤ ((2 ^ 53 * 10 ^ 6 : Nat) : ℚ) := by
      have : scaled6 m e ≤ 2 ^ 53 * 10 ^ 6 := by omega
      exact_mod_cast this
    have h10 : (0 : ℚ) < ((10 ^ 6 : Nat) : ℚ) := by norm_num
    rw [div_lt_iff₀ h10]
    calc ((scaled6 m e : Nat) : ℚ) ≤ ((2 ^ 53 * 10 ^ 6 : Nat) : ℚ) := hN'
      _ < (2 : ℚ) ^ (1023 : Int) * ((10 ^ 6 : Nat) : ℚ) := by norm_num

theorem realQuantity_of_unit (rt : Runtime) (u : String) (k : Nat) (v : Float64) (hk : k < 6)
    (hu : TrimSuffix u.toList ['h'] = (sizeUnit k).toList) (hc : v.Canonical)
    (hz : v.ltZero = false) :
    RealQuantity rt ⟨u, v⟩ = referenceBytes rt (sixDecimals v) k := by
  unfold RealQuantity FromHumanSize referenceBytes
  simp only
  rw [hu, parseSize_sprintf rt v _ decimalMap (sizeUnit_chars k)]
  cases v with
  | nan =>
    have h : ParseFloat (formatF .nan) = .ok .nan := rfl
    rw [h]
    simp only [Float64.ltZero, Bool.false_eq_true, if_false]
    rw [parseSuffix_sizeUnit rt _ k hk]
    have hmul : ∀ x, Float64.mul .nan x = .nan := by
      intro x
      cases x <;> rfl
    show Float64.toInt64 rt (if k = 0 then Float64.nan else _) = Float64.toInt64 rt (Float64.mul .nan _)
    rw [hmul]
    split_ifs <;> rfl
  | inf neg =>
    cases neg with
    | true => exact absurd hz (by decide)
    | false =>
      have h : ParseFloat (formatF (.inf false)) = .ok (.inf false) := rfl
      rw [h]
      simp only [Float64.ltZero, Bool.false_eq_true, if_false]
      rw [parseSuffix_sizeUnit rt _ k hk]
      split_ifs with h0
      · subst h0
        rw [pow_zero, ofNat_one]
        rfl
      · rfl
  | fin neg m e =>
    obtain ⟨m', e', hw⟩ := sixDecimals_finite neg m e hc
    have hw' : Float64.round neg (scaled6 m e) (10 ^ 6) = .fin neg m' e' := hw
    have hn : (Float64.fin neg m' e').Normal := by
      have := round_normal neg (scaled6 m e) (10 ^ 6) (by norm_num)
      rwa [hw'] at this
    have hz' : (Float64.fin neg m' e').ltZero = false := by
      cases neg with
      | false => rfl
      | true =>
        have hm : m = 0 := by
          simp only [Float64.ltZero, Bool.true_and, decide_eq_false_iff_not, ne_eq,
            not_not] at hz
          exact hz
        subst hm
        rw [scaled6_zero] at hw'
        have : Float64.round true 0 (10 ^ 6) = .fin true 0 (-1074) := by decide
        rw [this] at hw'
        cases hw'
        rfl
    rw [parseFloat_formatF, hw]
    simp only [hz', Bool.false_eq_true, if_false]
    rw [parseSuffix_sizeUnit rt _ k hk]
    split_ifs with h0
    · subst h0
      rw [mul_one_of_normal neg m' e' hn]
    · rfl

/-! ## The model on known values -/

theorem round_one_tenth :
    Float64.round false 1 10 = .fin false 7205759403792794 (-56) := by decide

theorem formatF_known_values :
    formatF (Float64.ofNat 2) = "2.000000".toList
      ∧ formatF (Float64.round false 1 128) = "0.007812".toList
      ∧ formatF (Float64.round false 3 128) = "0.023438".toList
      ∧ formatF (Float64.round true 1 (10 ^ 7)) = "-0.000000".toList
      ∧ formatF (Float64.round false 123456789 1000) = "123456.789000".toList := by
  decide

theorem fromHumanSize_known_values :
    FromHumanSize sampleRuntime "1.001 kB".toList = (1000, none)
      ∧ FromHumanSize sampleRuntime "0.3 GB".toList = (300000000, none)
      ∧ FromHumanSize sampleRuntime "32.5 kB".toList = (32500, none)
      ∧ FromHumanSize sampleRuntime ".3kB".toList = (300, none)
      ∧ FromHumanSize sampleRuntime "32Gb".toList = (32000000000, none)
      ∧ FromHumanSize sampleRuntime "32 KiB".toList = (32000, none)
      ∧ FromHumanSize sampleRuntime "32.5 B".toList = (32, none)
      ∧ FromHumanSize sampleRuntime "-0 B".toList = (0, none)
      ∧ FromHumanSize sampleRuntime "0 ".toList = (0, none)
      ∧ (FromHumanSize sampleRuntime " 0".toList).1 = -1
      ∧ (FromHumanSize sampleRuntime "32 bb".toList).1 = -1
      ∧ (FromHumanSize sampleRuntime "32  b".toList).1 = -1
      ∧ FromHumanSize sampleRuntime "-32".toList = (-1, some "invalid size")
      ∧ FromHumanSize sampleRuntime "1 XYZ".toList = (-1, some "invalid suffix") := by
  decide

/-! ## C1: a rejected quantity -/

/-- C1, amended: for every value and every unit, when the human-size parser
rejects the string built from them (the unit with one trailing `h` stripped),
`RealQuantity` returns `-1`, the integer `units.FromHumanSize` returns
alongside its error; the function has no error result, the error is only
logged. -/
theorem real_quantity_rejected_returns_minus_one (rt : Runtime) (quantity : Quantity)
    (h : (FromHumanSize rt
      (Sprintf_f_s quantity.Value (TrimSuffix quantity.Unit.toList ['h']))).2 ≠ none) :
    RealQuantity rt quantity = -1 := by
  unfold RealQuantity
  unfold FromHumanSize at h ⊢
  rcases parseSize_cases rt _ decimalMap with h1 | h1
  · exact absurd h1 h
  · exact h1

/-- C1, amended, at a concrete input: unit `XYZ`. -/
theorem real_quantity_rejected_returns_minus_one_witness :
    (FromHumanSize sampleRuntime
        (Sprintf_f_s (Float64.ofNat 1) (TrimSuffix "XYZ".toList ['h']))).2 ≠ none
      ∧ RealQuantity sampleRuntime ⟨"XYZ", Float64.ofNat 1⟩ = -1 :=
  ⟨by decide, real_quantity_rejected_returns_minus_one sampleRuntime
    ⟨"XYZ", Float64.ofNat 1⟩ (by decide)⟩

/-- C1 as stated fails: the parser rejects the value `1` with unit `XYZ`, and
`RealQuantity` returns `-1` there, not `0`. -/
theorem real_quantity_rejected_is_not_zero :
    (FromHumanSize sampleRuntime
        (Sprintf_f_s (Float64.ofNat 1) (TrimSuffix "XYZ".toList ['h']))).2 ≠ none
      ∧ RealQuantity sampleRuntime ⟨"XYZ", Float64.ofNat 1⟩ = -1
      ∧ RealQuantity sampleRuntime ⟨"XYZ", Float64.ofNat 1⟩ ≠ 0 := by
  decide

/-! ## C2: the hourly marker -/

theorem trimSuffix_append_h (l : List Char) : TrimSuffix (l ++ ['h']) ['h'] = l := by
  unfold TrimSuffix
  have h : (['h'] : List Char).isSuffixOf (l ++ ['h']) = true :=
    List.isSuffixOf_iff_suffix.mpr (List.suffix_append l ['h'])
  rw [h]
  simp

theorem trimSuffix_of_no_h (l : List Char) (h : l.getLast? ≠ some 'h') :
    TrimSuffix l ['h'] = l := by
  unfold TrimSuffix
  have hs : (['h'] : List Char).isSuffixOf l = false := by
    rw [Bool.eq_false_iff]
    intro hsuf
    obtain ⟨t, ht⟩ := List.isSuffixOf_iff_suffix.mp hsuf
    apply h
    rw [← ht]
    simp
  rw [hs]
  simp

/-- C2: for every value and every unit string `u` that does not itself end in
`h` (in particular every valid unit), `RealQuantity` on `(value, u + "h")`
equals `RealQuantity` on `(value, u)`. -/
theorem hourly_marker_is_ignored (rt : Runtime) (value : Float64) (u : String)
    (h : u.toList.getLast? ≠ some 'h') :
    RealQuantity rt ⟨u ++ "h", value⟩ = RealQuantity rt ⟨u, value⟩ := by
  unfold RealQuantity
  have h1 : (u ++ "h").toList = u.toList ++ ['h'] := String.data_append u "h"
  simp only [h1, trimSuffix_append_h, trimSuffix_of_no_h u.toList h]

/-- C2 at a concrete input: `2 GBh` and `2 GB`. -/
theorem hourly_marker_is_ignored_witness :
    ("GB" : String).toList.getLast? ≠ some 'h'
      ∧ RealQuantity sampleRuntime ⟨"GB" ++ "h", Float64.ofNat 2⟩
          = RealQuantity sampleRuntime ⟨"GB", Float64.ofNat 2⟩ :=
  ⟨by decide, hourly_marker_is_ignored sampleRuntime (Float64.ofNat 2) "GB" (by decide)⟩

/-! ## C3: agreement with the reference conversion -/

/-- C3, amended: for every non-negative float64 value (not below zero; NaN
and `+Inf` included) and each of the units `B`, `kB`, `MB`, `GB`, `TB`, `PB`,
`RealQuantity` equals the reference conversion (value times `1000^k`,
truncated to int64) of the value as `%f` renders it, that is of the float64
nearest to the value rounded to six decimal places; it equals the reference
conversion of the value itself whenever that rounding leaves the value
unchanged; and the value zero yields `0`. -/
theorem real_quantity_is_reference_of_six_decimals (rt : Runtime) (value : Float64) (k : Nat)
    (hk : k < 6) (hc : value.Canonical) (hz : value.ltZero = false) :
    RealQuantity rt ⟨sizeUnit k, value⟩ = referenceBytes rt (sixDecimals value) k
      ∧ (sixDecimals value = value →
          RealQuantity rt ⟨sizeUnit k, value⟩ = referenceBytes rt value k)
      ∧ RealQuantity rt ⟨sizeUnit k, Float64.ofNat 0⟩ = 0 := by
  have h := realQuantity_of_unit rt (sizeUnit k) k value hk (trimSuffix_sizeUnit k) hc hz
  refine ⟨h, ?_, ?_⟩
  · intro h6
    rw [h, h6]
  · rw [realQuantity_of_unit rt (sizeUnit k) k (Float64.ofNat 0) hk (trimSuffix_sizeUnit k)
      (round_canonical false 0 1 Nat.one_pos) (by decide)]
    have h0 : sixDecimals (Float64.ofNat 0) = .fin false 0 (-1074) := by decide
    rw [h0]
    interval_cases k <;> rfl

/-- C3, amended, at a concrete input: `0.5` is unchanged by the rendering,
and `0.5 GB` is `500000000` bytes, as the reference conversion gives. -/
theorem real_quantity_is_reference_of_six_decimals_witness :
    3 < 6 ∧ oneHalf.Canonical ∧ oneHalf.ltZero = false ∧ sixDecimals oneHalf = oneHalf
      ∧ RealQuantity sampleRuntime ⟨"GB", oneHalf⟩ = referenceBytes sampleRuntime oneHalf 3
      ∧ referenceBytes sampleRuntime oneHalf 3 = 500000000 :=
  ⟨by decide, round_canonical false 1 2 (by decide), by decide, by decide,
    (real_quantity_is_reference_of_six_decimals sampleRuntime oneHalf 3 (by decide)
      (round_canonical false 1 2 (by decide)) (by decide)).2.1 (by decide),
    by decide⟩

/-- C3 as stated fails: the value `0.0000001` (the float64 nearest to it) with
unit `TB` is rendered `0.000000`, so `RealQuantity` returns `0`, while the
reference conversion of the value is `100000` bytes (`99999` when the product
is taken exactly before truncating). -/
theorem six_decimals_drop_small_values :
    tenMillionth = .fin false 7555786372591432 (-76)
      ∧ tenMillionth.ltZero = false
      ∧ RealQuantity sampleRuntime ⟨"TB", tenMillionth⟩ = 0
      ∧ referenceBytes sampleRuntime tenMillionth 4 = 100000
      ∧ truncBin (7555786372591432 * 1000 ^ 4) (-76) = 99999 := by
  decide

/-! ## C4: whole gigabytes -/

theorem ofNat_exact (n : Nat) (hn : n < 2 ^ 53) :
    ∃ m e, Float64.ofNat n = .fin false m e ∧ (m : ℚ) * (2 : ℚ) ^ e = n
      ∧ (Float64.fin false m e).Normal := by
  obtain ⟨m, e, hr, hv⟩ := round_exact false n 1 Nat.one_pos n 0 hn (by norm_num) (by norm_num)
    (by simp)
  have hnorm := round_normal false n 1 Nat.one_pos
  rw [hr] at hnorm
  exact ⟨m, e, hr, by simpa using hv, hnorm⟩

theorem sixDecimals_ofNat (n : Nat) (hn : n < 2 ^ 53) :
    sixDecimals (Float64.ofNat n) = Float64.ofNat n := by
  obtain ⟨m, e, hr, hv, hnorm⟩ := ofNat_exact n hn
  rw [hr]
  show Float64.round false (scaled6 m e) (10 ^ 6) = _
  have hs : scaled6 m e = n * 10 ^ 6 := by
    apply scaled6_exact
    rw [hv]
    push_cast
    ring
  rw [hs]
  apply round_eq_of_value false _ _ (by norm_num) m e hnorm
  rw [hv]
  push_cast
  field_simp

theorem ofNat_giga : Float64.ofNat (1000 ^ 3) = .fin false 8388608000000000 (-23) := by decide

/-- C4, amended: `RealQuantity` on `{unit: "GBh", value: n}` returns
`n * 10^9` for every whole number `n` with `n * 10^9 < 2^62`, in particular
`2_000_000_000` for the value `2.0`. -/
theorem real_quantity_whole_gigabytes (rt : Runtime) (n : Nat) (h : n * 10 ^ 9 < 2 ^ 62) :
    RealQuantity rt ⟨"GBh", Float64.ofNat n⟩ = (n : Int) * 10 ^ 9 := by
  have hn : n < 2 ^ 53 := by omega
  have hk : n * 1953125 < 2 ^ 53 := by omega
  obtain ⟨m, e, hr, hv, hnorm⟩ := ofNat_exact n hn
  have hcan : (Float64.ofNat n).Canonical := round_canonical false n 1 Nat.one_pos
  have hz : (Float64.ofNat n).ltZero = false := by
    rw [hr]
    rfl
  rw [realQuantity_of_unit rt "GBh" 3 (Float64.ofNat n) (by norm_num) (by decide) hcan hz,
    sixDecimals_ofNat n hn, hr]
  unfold referenceBytes
  rw [ofNat_giga]
  show Float64.toInt64 rt (Float64.roundBin (false != false) (m * 8388608000000000) (e + -23)) = _
  obtain ⟨p, q, hq, hrb, hx⟩ := roundBin_ratio (false != false) (m * 8388608000000000) (e + -23)
  have hval : (p : ℚ) / q = ((n * 1953125 : Nat) : ℚ) * (2 : ℚ) ^ (9 : Int) := by
    rw [hx, zpow_add₀ (by norm_num)]
    push_cast
    have h23 : (2 : ℚ) ^ (-23 : Int) = 1 / 8388608 := by
      rw [zpow_neg]
      norm_num
    rw [h23, ← hv]
    norm_num
    ring
  obtain ⟨m2, e2, hr2, hv2⟩ := round_exact (false != false) p q hq (n * 1953125) 9 hk
    (by norm_num) (by norm_num) hval
  rw [hrb, hr2]
  have ht : truncBin m2 e2 = n * 10 ^ 9 := by
    apply truncBin_exact
    rw [hv2]
    push_cast
    norm_num
    ring
  unfold Float64.toInt64
  simp only [bne_self_eq_false, Bool.false_eq_true, if_false, ht]
  have hr1 : -(2 : Int) ^ 63 ≤ ((n * 10 ^ 9 : Nat) : Int) := by
    have : (0 : Int) ≤ ((n * 10 ^ 9 : Nat) : Int) := Int.natCast_nonneg _
    omega
  have hr3 : ((n * 10 ^ 9 : Nat) : Int) < (2 : Int) ^ 63 := by
    have : ((n * 10 ^ 9 : Nat) : Int) < ((2 ^ 62 : Nat) : Int) := by exact_mod_cast h
    omega
  rw [if_pos ⟨hr1, hr3⟩]
  push_cast
  rfl

/-- C4, amended, at the input of the end-to-end scenario: `2.0 GBh`. -/
theorem real_quantity_whole_gigabytes_witness :
    2 * 10 ^ 9 < 2 ^ 62
      ∧ RealQuantity sampleRuntime ⟨"GBh", Float64.ofNat 2⟩ = ((2 : Nat) : Int) * 10 ^ 9 :=
  ⟨by decide, real_quantity_whole_gigabytes sampleRuntime 2 (by decide)⟩

/-- C4 as stated fails: `4611686019 * 10^9` is below `2^63`, but the float64
product `4611686019 * 1e9` is not exact (it needs 54 significant bits) and is
rounded, ties to even, to `4611686019000000512`, which is what `RealQuantity`
returns. -/
theorem large_whole_gigabytes_are_rounded :
    4611686019 * 10 ^ 9 < 2 ^ 63
      ∧ RealQuantity sampleRuntime ⟨"GBh", Float64.ofNat 4611686019⟩ = 4611686019000000512
      ∧ RealQuantity sampleRuntime ⟨"GBh", Float64.ofNat 4611686019⟩
          ≠ ((4611686019 : Nat) : Int) * 10 ^ 9 := by
  decide

end OvhExporter
